import Mathlib

/-!
Stundenplan: the schedule engine of `src/app.js`

A shallow embedding of the time-slot resolution, progress and lesson-count
functions of the client (`findCurrentSlot`, `calculateProgress`,
`countLessons`), of the label rendering (`updateCurrent`, `updateSchedule`)
and of `loadSettings`, and of the signup handler of `src/server.js`,
followed by theorems about them.

Modelling conventions.

* A reading of `new Date()` is a `JsDate`: the calendar weekday `getDay`
  (0 = Sunday .. 6 = Saturday) and the milliseconds elapsed since local
  midnight.  All clock readings taken during one call are the same instant,
  and the day has no daylight-saving shift, so `toDateToday "HH:MM"` is
  `(HH * 60 + MM) * 60000` milliseconds after midnight.
* A slot-table entry `"HH:MM"` is kept as the pair `HM` that
  `hm.split(':').map(Number)` produces.
* The week table is a list of rows of string codes.  `week[d]` on a missing
  row is `undefined`, and indexing `undefined` throws a `TypeError`; a missing
  cell of an existing row is `undefined` (`Option.none`).
* A JavaScript number is held as the rational it denotes, and every
  arithmetic result is rounded to the nearest binary64 double, ties to even
  (`toDouble`); `Math.round x = ⌊x + 1/2⌋` on the double it receives.
  Infinity, NaN and the sign of zero are not represented.
* Property lookup `subjectNames[c]` sees the own properties of the object
  literal only.
-/

namespace Stundenplan

/-! ## Data model -/

/-- A time of day `"HH:MM"` after `split(':').map(Number)`. -/
structure HM where
  h : Nat
  m : Nat
deriving DecidableEq, Repr

/-- One `new Date()` reading: weekday and milliseconds since local midnight. -/
structure JsDate where
  getDay : Fin 7
  ms : Nat
deriving DecidableEq, Repr

/-- The exception a property access on `undefined` throws. -/
inductive JsError where
  | typeError
deriving DecidableEq, Repr

deriving instance DecidableEq for Except

/-- The object `findCurrentSlot` returns, by its `state` tag. -/
inductive SlotState where
  | weekend
  | lesson (slot : Nat) (start : Nat) (end_ : Nat) (subject : String)
  | brk (after : Nat) (end_ : Nat) (nextSubject : String)
  | none
deriving DecidableEq, Repr

/-- The object `countLessons` returns. -/
structure Counts where
  total : Nat
  remaining : Nat
deriving DecidableEq, Repr

/-- The constant `slotTimes` (app.js lines 6-11). -/
def slotTimes : List (HM × HM) :=
  [(⟨7, 30⟩, ⟨8, 15⟩), (⟨8, 20⟩, ⟨9, 5⟩), (⟨9, 10⟩, ⟨9, 55⟩),
   (⟨10, 15⟩, ⟨11, 0⟩), (⟨11, 5⟩, ⟨11, 50⟩), (⟨12, 0⟩, ⟨12, 45⟩),
   (⟨12, 55⟩, ⟨13, 40⟩), (⟨13, 45⟩, ⟨14, 30⟩), (⟨14, 35⟩, ⟨15, 20⟩),
   (⟨15, 30⟩, ⟨16, 15⟩), (⟨16, 20⟩, ⟨17, 5⟩), (⟨17, 10⟩, ⟨17, 55⟩)]

/-- The constant `defaultWeek` (app.js lines 13-19). -/
def defaultWeek : List (List String) :=
  [["", "D", "MA", "MA", "NT", "", "", "E", "G", "MI", "BS", ""],
   ["", "E", "F", "D", "D", "", "", "MA", "Gg", "D", "", ""],
   ["MA", "MA", "Gg", "NT", "NT", "", "", "", "", "", "", ""],
   ["D", "F", "F", "WAH", "WAH", "WAH", "WAH", "BS", "BS", "", "", ""],
   ["", "Mu", "MA", "BG", "BG", "", "", "E", "RKE", "RKE", "", ""]]

/-- The constant `subjectNames` (app.js lines 23-28), as its own properties. -/
def subjectNames : List (String × String) :=
  [("MA", "Mathematik"), ("D", "Deutsch"), ("E", "Englisch"), ("F", "Franz√∂sisch"),
   ("NT", "Natur & Technik"), ("Gg", "Geografie"), ("G", "Geschichte"),
   ("BG", "Gestalten"), ("Mu", "Musik"), ("BS", "Sport"), ("MI", "Informatik"),
   ("WAH", "WAH"), ("RKE", "RKE")]

/-! ## JavaScript helpers -/

/-- The expression `a || b` for `a` a string or `undefined`: `b` when `a` is
`undefined` or the empty string. -/
def jsOr (a : Option String) (b : String) : String :=
  match a with
  | some s => if s = "" then b else s
  | Option.none => b

/-- Truthiness of a string or `undefined`. -/
def jsTruthy (a : Option String) : Bool :=
  match a with
  | some s => s != ""
  | Option.none => false

/-- The expression `week[dIdx][i]`: a `TypeError` when row `dIdx` is missing,
`undefined` when the row has no cell `i`. -/
def getCell (week : List (List String)) (dIdx i : Nat) : Except JsError (Option String) :=
  match week[dIdx]? with
  | Option.none => Except.error JsError.typeError
  | some row => Except.ok row[i]?

/-- Rounding of `Math.round`: nearest integer, halves towards plus infinity. -/
def mathRound (x : ℚ) : ℤ := ⌊x + 1 / 2⌋

/-- Rounding to the nearest integer, ties to the even one. -/
def roundHalfEven (y : ℚ) : ℤ :=
  let f := ⌊y⌋
  if y - f < 1 / 2 then f
  else if 1 / 2 < y - f then f + 1
  else if f % 2 = 0 then f else f + 1

/-- The number of doublings, at most `fuel`, that bring `y` up to `2 ^ 52`. -/
def normShift : Nat → ℚ → Nat
  | 0, _ => 0
  | fuel + 1, y => if (2 : ℚ) ^ 52 ≤ y then 0 else normShift fuel (2 * y) + 1

/-- The number of halvings, at most `fuel`, that bring `y` below `2 ^ 53`. -/
def downShift : Nat → ℚ → Nat
  | 0, _ => 0
  | fuel + 1, y => if y < (2 : ℚ) ^ 53 then 0 else downShift fuel (y / 2) + 1

/-- The binary64 double nearest to `x`, ties to even: the significand is
`x` scaled into `2 ^ 52 .. 2 ^ 53` and rounded to an integer; below the normal
range the scale stops at `2 ^ 1074`, the spacing of the subnormal doubles.
Overflow to Infinity (from `2 ^ 1024` on) is not represented. -/
def toDouble (x : ℚ) : ℚ :=
  if |x| < 2 ^ 53 then
    let k := normShift 1074 |x|
    (roundHalfEven (x * 2 ^ k) : ℚ) / 2 ^ k
  else
    let j := downShift 971 |x|
    (roundHalfEven (x / 2 ^ j) : ℚ) * 2 ^ j

/-! ## The engine -/

/-- The function `todayIndex`: Monday = 0 .. Sunday = 6. -/
def todayIndex (now : JsDate) : Nat := (now.getDay.val + 6) % 7

/-- The function `toDateToday`, in milliseconds since local midnight:
`setHours(h, m, 0, 0)`. -/
def toDateToday (hm : HM) : Nat := ((hm.h * 60 + hm.m) * 60 + 0) * 1000 + 0

/-- First loop of `findCurrentSlot` (lines 261-267), from index `i` on over
the remaining slots: the lesson whose interval holds `now`, if any. -/
def lessonLoop (week : List (List String)) (dIdx now : Nat) :
    List (HM × HM) → Nat → Except JsError (Option SlotState)
  | [], _ => Except.ok Option.none
  | s :: rest, i =>
    let start := toDateToday s.1
    let end_ := toDateToday s.2
    if start ≤ now ∧ now < end_ then
      match getCell week dIdx i with
      | Except.error e => Except.error e
      | Except.ok cell => Except.ok (some (SlotState.lesson i start end_ (jsOr cell "frei")))
    else lessonLoop week dIdx now rest (i + 1)

/-- Second loop of `findCurrentSlot` (lines 269-275), from index `i` on over
the remaining slots: the gap between consecutive slots that holds `now`. -/
def breakLoop (week : List (List String)) (dIdx now : Nat) :
    List (HM × HM) → Nat → Except JsError (Option SlotState)
  | s :: t :: rest, i =>
    let end_ := toDateToday s.2
    let next := toDateToday t.1
    if end_ ≤ now ∧ now < next then
      match getCell week dIdx (i + 1) with
      | Except.error e => Except.error e
      | Except.ok cell => Except.ok (some (SlotState.brk i next (jsOr cell "")))
    else breakLoop week dIdx now (t :: rest) (i + 1)
  | _, _ => Except.ok Option.none

/-- The function `findCurrentSlot` (lines 256-278).  The day-index is a
natural number, so the test `dIdx < 0` of the guard never holds. -/
def findCurrentSlot (slotTimes : List (HM × HM)) (week : List (List String))
    (now : JsDate) : Except JsError SlotState :=
  let dIdx := todayIndex now
  if dIdx > 4 then Except.ok SlotState.weekend
  else
    match lessonLoop week dIdx now.ms slotTimes 0 with
    | Except.error e => Except.error e
    | Except.ok (some r) => Except.ok r
    | Except.ok Option.none =>
      match breakLoop week dIdx now.ms slotTimes 0 with
      | Except.error e => Except.error e
      | Except.ok (some r) => Except.ok r
      | Except.ok Option.none => Except.ok SlotState.none

/-- The `type === 'day'` computation of `calculateProgress` on a weekday
(lines 286-290): `slotTimes[0]` of an empty table is `undefined`.  The two
differences, the quotient and the product are double operations. -/
def dayBranch (slotTimes : List (HM × HM)) (now : Nat) : Except JsError ℤ :=
  match slotTimes.head?, slotTimes.getLast? with
  | some first, some last =>
    let dayStart := toDateToday first.1
    let dayEnd := toDateToday last.2
    if now < dayStart then Except.ok 0
    else if now ≥ dayEnd then Except.ok 100
    else Except.ok (mathRound (toDouble (toDouble (toDouble ((now : ℚ) - dayStart)
      / toDouble ((dayEnd : ℚ) - dayStart)) * 100)))
  | _, _ => Except.error JsError.typeError

/-- The function `calculateProgress` (lines 280-295); every `type` other than
`"day"` takes the week branch, whose inner call is `calculateProgress('day')`.
The quotient by 100, the sum, the quotient by 5 and the product are double
operations. -/
def calculateProgress (slotTimes : List (HM × HM)) (type : String) (now : JsDate) :
    Except JsError ℤ :=
  let dIdx := todayIndex now
  if dIdx > 4 then
    Except.ok (if type = "week" then (if dIdx = 5 ∨ dIdx = 6 then 100 else 0) else 0)
  else if type = "day" then dayBranch slotTimes now.ms
  else
    match dayBranch slotTimes now.ms with
    | Except.error e => Except.error e
    | Except.ok p =>
      let dayProg : ℚ := toDouble ((p : ℚ) / 100)
      Except.ok (mathRound (toDouble (toDouble (toDouble ((dIdx : ℚ) + dayProg) / 5) * 100)))

/-- The loop of `countLessons` (lines 302-307), from index `i` on. -/
def countLoop (week : List (List String)) (dIdx now : Nat) :
    List (HM × HM) → Nat → Counts → Except JsError Counts
  | [], _, acc => Except.ok acc
  | s :: rest, i, acc =>
    match getCell week dIdx i with
    | Except.error e => Except.error e
    | Except.ok cell =>
      if jsTruthy cell ∧ cell ≠ some "" then
        countLoop week dIdx now rest (i + 1)
          ⟨acc.total + 1, if now < toDateToday s.2 then acc.remaining + 1 else acc.remaining⟩
      else countLoop week dIdx now rest (i + 1) acc

/-- The function `countLessons` (lines 297-309), with the same weekend guard. -/
def countLessons (slotTimes : List (HM × HM)) (week : List (List String))
    (now : JsDate) : Except JsError Counts :=
  let dIdx := todayIndex now
  if dIdx > 4 then Except.ok ⟨0, 0⟩
  else countLoop week dIdx now.ms slotTimes 0 ⟨0, 0⟩

/-- Milliseconds since midnight of the wall-clock time `h:m:s`. -/
def clock (h m s : Nat) : Nat := ((h * 60 + m) * 60 + s) * 1000

/-- The slot table is strictly increasing and non-overlapping: every slot
starts before it ends and ends no later than the next one starts. -/
def wellFormed : List (HM × HM) → Bool
  | [] => true
  | [s] => decide (toDateToday s.1 < toDateToday s.2)
  | s :: t :: rest =>
    decide (toDateToday s.1 < toDateToday s.2) && decide (toDateToday s.2 ≤ toDateToday t.1)
      && wellFormed (t :: rest)

/-- The two-slot table of the spec's concrete scenario. -/
def scenarioSlots : List (HM × HM) := [(⟨7, 30⟩, ⟨8, 15⟩), (⟨8, 20⟩, ⟨9, 5⟩)]

/-- The day-progress fraction of the specification: 0 before the first slot
starts, 1 from the last slot's end on, the elapsed share of the school day in
between. -/
def dayFraction (dayStart dayEnd now : Nat) : ℚ :=
  if now < dayStart then 0
  else if dayEnd ≤ now then 1
  else ((now : ℚ) - dayStart) / ((dayEnd : ℚ) - dayStart)

/-- Slot index `i` holds a lesson in the day's row: a code is present there
and it is not the empty string. -/
def occupied (row : List String) (i : Nat) : Bool :=
  match row[i]? with
  | some c => decide (c ≠ "")
  | Option.none => false

/-- Slot `i` of the table ends strictly later than `now`. -/
def endsAfter (slotTimes : List (HM × HM)) (now i : Nat) : Bool :=
  match slotTimes[i]? with
  | some s => decide (now < toDateToday s.2)
  | Option.none => false

/-- The specification's `total`: the number of slot indices with a non-empty code. -/
def lessonTotal (slotTimes : List (HM × HM)) (row : List String) : Nat :=
  (List.range slotTimes.length).countP (fun i => occupied row i)

/-- The specification's `remaining`: the number of slot indices with a
non-empty code whose slot ends strictly later than `now`. -/
def lessonRemaining (slotTimes : List (HM × HM)) (row : List String) (now : Nat) : Nat :=
  (List.range slotTimes.length).countP (fun i => occupied row i && endsAfter slotTimes now i)

/-! ## Rendering of labels -/

/-- The function `pad`: `n.toString().padStart(2, '0')`. -/
def pad (n : Nat) : String :=
  let s := toString n
  if s.length < 2 then "0" ++ s else s

/-- The text `"HH:MM"` of a slot-table entry, as written in `slotTimes`. -/
def hmText (hm : HM) : String := pad hm.h ++ ":" ++ pad hm.m

/-- The property access `subjectNames[c]`: `undefined` when `c` has no entry.
Only the own properties of the literal are looked up: a code that names a
member of `Object.prototype` (`constructor`, `toString`, ...) finds that
member in the source and is not represented here. -/
def subjectName (c : String) : Option String := subjectNames.lookup c

/-- A string or `undefined` inside a template literal. -/
def jsTemplate (a : Option String) : String :=
  match a with
  | some s => s
  | Option.none => "undefined"

/-- What `updateCurrent` writes: `pill.textContent` and `meta.textContent`. -/
structure CurrentView where
  pillText : String
  metaText : String
deriving DecidableEq, Repr

/-- The function `updateCurrent` (lines 335-372), its two label-bearing outputs. -/
def updateCurrent (slotTimes : List (HM × HM)) (slot : SlotState) : Except JsError CurrentView :=
  match slot with
  | SlotState.lesson i _ _ subject =>
    let name := jsOr (subjectName subject) subject
    match slotTimes[i]? with
    | Option.none => Except.error JsError.typeError
    | some s => Except.ok ⟨name, hmText s.1 ++ " ‚Äî " ++ hmText s.2⟩
  | SlotState.brk _ _ nextSubject =>
    Except.ok ⟨"Pause",
      if nextSubject ≠ "" then "N√§chste: " ++ jsTemplate (subjectName nextSubject) else "Pause"⟩
  | SlotState.weekend => Except.ok ⟨"Wochenende", "Geniesse deine freie Zeit"⟩
  | SlotState.none => Except.ok ⟨"Keine Lektion", "Schultag vorbei oder noch nicht gestartet"⟩

/-- One `schedule-item` element that `updateSchedule` appends. -/
structure ScheduleItem where
  time : String
  subject : String
  name : String
  active : Bool
deriving DecidableEq, Repr

/-- The test `current.state === 'lesson' && current.slot === i`. -/
def isActive (current : SlotState) (i : Nat) : Bool :=
  match current with
  | SlotState.lesson j _ _ _ => decide (j = i)
  | _ => false

/-- The loop of `updateSchedule` (lines 384-398), from index `i` on. -/
def scheduleLoop (week : List (List String)) (dIdx : Nat) (current : SlotState) :
    List (HM × HM) → Nat → Except JsError (List ScheduleItem)
  | [], _ => Except.ok []
  | s :: rest, i =>
    match getCell week dIdx i with
    | Except.error e => Except.error e
    | Except.ok subj =>
      if ¬ jsTruthy subj ∨ subj = some "" then scheduleLoop week dIdx current rest (i + 1)
      else
        let code := jsTemplate subj
        let active := isActive current i
        match scheduleLoop week dIdx current rest (i + 1) with
        | Except.error e => Except.error e
        | Except.ok items =>
          Except.ok (⟨hmText s.1 ++ "‚Äì" ++ hmText s.2, code, jsOr (subjectName code) code, active⟩
            :: items)

/-- The function `updateSchedule` (lines 374-399): `none` is the weekend
placeholder, otherwise the items of the list. -/
def updateSchedule (slotTimes : List (HM × HM)) (week : List (List String)) (now : JsDate)
    (current : SlotState) : Except JsError (Option (List ScheduleItem)) :=
  let dIdx := todayIndex now
  if dIdx > 4 then Except.ok Option.none
  else
    match scheduleLoop week dIdx current slotTimes 0 with
    | Except.error e => Except.error e
    | Except.ok items => Except.ok (some items)

/-- A week table as a user can store it through `PUT /api/settings`: the
default week with the code `"XY"`, which has no display name, in Monday's
second slot. -/
def customWeek : List (List String) :=
  [["", "XY", "MA", "MA", "NT", "", "", "E", "G", "MI", "BS", ""],
   ["", "E", "F", "D", "D", "", "", "MA", "Gg", "D", "", ""],
   ["MA", "MA", "Gg", "NT", "NT", "", "", "", "", "", "", ""],
   ["D", "F", "F", "WAH", "WAH", "WAH", "WAH", "BS", "BS", "", "", ""],
   ["", "Mu", "MA", "BG", "BG", "", "", "E", "RKE", "RKE", "", ""]]

/-! ## Loading the settings -/

/-- The client variable `settings`. -/
structure Settings where
  soundEnabled : Bool
  darkMode : Bool
  showSeconds : Bool
  notificationsEnabled : Bool
deriving DecidableEq, Repr

/-- The client's mutable state: `settings` and `week`. -/
structure ClientState where
  settings : Settings
  week : List (List String)
deriving DecidableEq, Repr

/-- The field `schedule_data` of a settings record as `loadSettings` sees it:
falsy (`absent`), a text on which `JSON.parse(...)` or `.week` throws
(`invalid`), or a parsed object with its `week` property when it has one. -/
inductive ScheduleData where
  | absent
  | invalid
  | parsed (week : Option (List (List String)))
deriving DecidableEq, Repr

/-- The answer of `GET /api/settings`: `res.ok` and the fields of the body,
the flags by their truthiness. -/
structure SettingsResponse where
  ok : Bool
  sound_enabled : Bool
  theme : String
  show_seconds : Bool
  notifications_enabled : Bool
  schedule_data : ScheduleData
deriving DecidableEq, Repr

/-- The initial client state (lines 4 and 21): `week` is a copy of `defaultWeek`. -/
def initialState : ClientState := ⟨⟨true, false, false, false⟩, defaultWeek⟩

/-- The function `loadSettings` (lines 91-110); `Option.none` is a `fetch`
that throws.  An exception inside the `try` leaves the assignments made
before it in place. -/
def loadSettings (st : ClientState) (res : Option SettingsResponse) : ClientState :=
  match res with
  | Option.none => st
  | some r =>
    if r.ok then
      let settings : Settings :=
        ⟨r.sound_enabled, decide (r.theme = "dark"), r.show_seconds, r.notifications_enabled⟩
      match r.schedule_data with
      | ScheduleData.absent => ⟨settings, st.week⟩
      | ScheduleData.invalid => ⟨settings, st.week⟩
      | ScheduleData.parsed Option.none => ⟨settings, st.week⟩
      | ScheduleData.parsed (some w) => ⟨settings, w⟩
    else st

/-- The shape invariant of the week table: 5 rows of exactly `n` codes. -/
def weekShape (n : Nat) (week : List (List String)) : Bool :=
  decide (week.length = 5) && week.all (fun row => decide (row.length = n))

/-! ## Matching slots and gaps -/

/-- The test of the first loop of `findCurrentSlot` at index `i`:
`now >= start && now < end` for slot `i`. -/
def slotMatch (slotTimes : List (HM × HM)) (now i : Nat) : Bool :=
  match slotTimes[i]? with
  | some s => decide (toDateToday s.1 ≤ now ∧ now < toDateToday s.2)
  | Option.none => false

/-- The test of the second loop of `findCurrentSlot` at index `i`:
`now >= end && now < next` for the gap between slots `i` and `i + 1`. -/
def gapMatch (slotTimes : List (HM × HM)) (now i : Nat) : Bool :=
  match slotTimes[i]?, slotTimes[i + 1]? with
  | some s, some t => decide (toDateToday s.2 ≤ now ∧ now < toDateToday t.1)
  | _, _ => false

/-- The number of slot indices plus the number of gap indices whose test
holds at `now`. -/
def matchCount (slotTimes : List (HM × HM)) (now : Nat) : Nat :=
  (List.range slotTimes.length).countP (slotMatch slotTimes now)
    + (List.range (slotTimes.length - 1)).countP (gapMatch slotTimes now)

/-! ## The account service (`src/server.js`)

Request fields are strings or absent.  The database is healthy: a statement
fails only on a constraint of the schema.  Text comparison in SQLite is
case-sensitive.  `bcrypt.hash` is a total function passed as a parameter. -/

/-- A row of the table `users` (lines 36-46), the columns `signup` writes. -/
structure UserRow where
  id : Nat
  username : String
  email : Option String
  password_hash : String
  display_name : String
deriving DecidableEq, Repr

/-- A row of the table `user_settings` (lines 49-58). -/
structure SettingsRow where
  user_id : Nat
  sound_enabled : Nat
  theme : String
  show_seconds : Nat
  notifications_enabled : Nat
  schedule_data : Option String
deriving DecidableEq, Repr

/-- The database: both tables and the last id that `AUTOINCREMENT` handed out. -/
structure Db where
  users : List UserRow
  user_settings : List SettingsRow
  lastId : Nat
deriving DecidableEq, Repr

/-- The JSON body of `POST /api/signup`. -/
structure SignupBody where
  username : Option String
  email : Option String
  password : Option String
  displayName : Option String
deriving DecidableEq, Repr

/-- The answer of an endpoint: status code, the `error` or `message` text and
the `userId` of a created account. -/
structure HttpResponse where
  status : Nat
  text : String
  userId : Option Nat
deriving DecidableEq, Repr

/-- Lower-casing of one character, as `toLowerCase` does on the letters of
ASCII (`A`-`Z`) and of Latin-1 (U+00C0-U+00DE without the sign U+00D7); the
capital letters of other scripts are not lowered here. -/
def lowerChar (c : Char) : Char :=
  if 65 ≤ c.toNat ∧ c.toNat ≤ 90 then Char.ofNat (c.toNat + 32)
  else if 192 ≤ c.toNat ∧ c.toNat ≤ 222 ∧ c.toNat ≠ 215 then Char.ofNat (c.toNat + 32)
  else c

/-- The method `toLowerCase`, character by character. -/
def toLowerCase (s : String) : String := ⟨s.data.map lowerChar⟩

/-- The property `length` of a string: its number of UTF-16 code units, two
for a character beyond U+FFFF. -/
def jsLength (s : String) : Nat :=
  (s.data.map (fun c => if c.toNat < 65536 then 1 else 2)).sum

/-- The query `SELECT ... FROM users WHERE username = ?`. -/
def selectUser (db : Db) (username : String) : Option UserRow :=
  db.users.find? (fun u => decide (u.username = username))

/-- The handler of `POST /api/signup` (lines 91-151): the new database and the
response.  A rejected statement is caught and answered with 500. -/
def signup (hash : String → String) (db : Db) (body : SignupBody) : Db × HttpResponse :=
  match body.username, body.password with
  | some username, some password =>
    if username = "" ∨ password = "" then
      (db, ⟨400, "Username and password are required", Option.none⟩)
    else if jsLength username < 3 ∨ jsLength username > 20 then
      (db, ⟨400, "Username must be 3-20 characters", Option.none⟩)
    else if jsLength password < 6 then
      (db, ⟨400, "Password must be at least 6 characters", Option.none⟩)
    else if (selectUser db username).isSome then
      (db, ⟨409, "Username already exists", Option.none⟩)
    else
      let passwordHash := hash password
      let stored := toLowerCase username
      if db.users.any (fun u => decide (u.username = stored)) then
        (db, ⟨500, "Internal server error", Option.none⟩)
      else
        let result := db.lastId + 1
        let row : UserRow :=
          ⟨result, stored, if jsTruthy body.email then body.email else Option.none,
            passwordHash, jsOr body.displayName username⟩
        let db1 : Db := ⟨db.users ++ [row], db.user_settings, result⟩
        if db.user_settings.any (fun r => decide (r.user_id = result)) then
          (db1, ⟨500, "Internal server error", Option.none⟩)
        else
          (⟨db1.users, db.user_settings ++ [⟨result, 1, "light", 0, 0, Option.none⟩], result⟩,
            ⟨201, "Account created successfully", some result⟩)
  | _, _ => (db, ⟨400, "Username and password are required", Option.none⟩)

/-- The user lookup of `POST /api/login` (lines 161-171):
`WHERE username = ?` with `username.toLowerCase()`. -/
def loginSelect (db : Db) (username : String) : Option UserRow :=
  selectUser db (toLowerCase username)

/-- A database in which the user `bob` is stored. -/
def bobDb : Db :=
  ⟨[⟨1, "bob", Option.none, "$2b$10$hash", "bob"⟩], [⟨1, 1, "light", 0, 0, Option.none⟩], 1⟩

/-- A signup request with a username and a password and no other field. -/
def signupRequest (username password : String) : SignupBody :=
  ⟨some username, Option.none, some password, Option.none⟩

/-! ## Facts about well-formed slot tables -/

theorem wellFormed_tail {s : HM × HM} {l : List (HM × HM)} (h : wellFormed (s :: l) = true) :
    wellFormed l = true := by
  cases l with
  | nil => rfl
  | cons t rest =>
    simp only [wellFormed, Bool.and_eq_true] at h
    exact h.2

theorem wellFormed_head_lt {s : HM × HM} {l : List (HM × HM)}
    (h : wellFormed (s :: l) = true) : toDateToday s.1 < toDateToday s.2 := by
  cases l with
  | nil => simpa [wellFormed] using h
  | cons t rest =>
    simp only [wellFormed, Bool.and_eq_true, decide_eq_true_eq] at h
    exact h.1.1

theorem wellFormed_mem_lt {l : List (HM × HM)} (h : wellFormed l = true) :
    ∀ s ∈ l, toDateToday s.1 < toDateToday s.2 := by
  induction l with
  | nil => intro s hs; cases hs
  | cons a rest ih =>
    intro s hs
    rcases List.mem_cons.mp hs with rfl | hs
    · exact wellFormed_head_lt h
    · exact ih (wellFormed_tail h) s hs

theorem wellFormed_end_le_start {l : List (HM × HM)} :
    ∀ {s : HM × HM}, wellFormed (s :: l) = true → ∀ t ∈ l, toDateToday s.2 ≤ toDateToday t.1 := by
  induction l with
  | nil => intro s _ t ht; cases ht
  | cons a rest ih =>
    intro s h t ht
    have h2 := h
    simp only [wellFormed, Bool.and_eq_true, decide_eq_true_eq] at h2
    rcases List.mem_cons.mp ht with rfl | ht
    · exact h2.1.2
    · have h3 := ih h2.2 t ht
      have h4 := wellFormed_head_lt h2.2
      omega

theorem wellFormed_start_le_start {s : HM × HM} {l : List (HM × HM)}
    (h : wellFormed (s :: l) = true) : ∀ t ∈ s :: l, toDateToday s.1 ≤ toDateToday t.1 := by
  intro t ht
  rcases List.mem_cons.mp ht with rfl | ht
  · exact le_refl _
  · have h1 := wellFormed_end_le_start h t ht
    have h2 := wellFormed_head_lt h
    omega

theorem wellFormed_end_le_last {l : List (HM × HM)} (h : wellFormed l = true)
    {last : HM × HM} (hl : l.getLast? = some last) :
    ∀ s ∈ l, toDateToday s.2 ≤ toDateToday last.2 := by
  induction l with
  | nil => intro s hs; cases hs
  | cons a rest ih =>
    intro s hs
    cases rest with
    | nil =>
      simp at hl hs
      subst hl; subst hs; exact le_refl _
    | cons b rest2 =>
      have hl2 : (b :: rest2).getLast? = some last := by
        simpa [List.getLast?_cons_cons] using hl
      rcases List.mem_cons.mp hs with rfl | hs
      · have hmem : last ∈ b :: rest2 := List.mem_of_getLast?_eq_some hl2
        have h1 := wellFormed_end_le_start h last hmem
        have h2 := wellFormed_mem_lt (wellFormed_tail h) last hmem
        omega
      · exact ih (wellFormed_tail h) hl2 s hs

/-! ## The two loops of `findCurrentSlot` -/

theorem lessonLoop_hit (week : List (List String)) (dIdx now : Nat) :
    ∀ (l : List (HM × HM)) (k i : Nat) (s : HM × HM), wellFormed l = true →
      l[i]? = some s → toDateToday s.1 ≤ now → now < toDateToday s.2 →
      lessonLoop week dIdx now l k =
        match getCell week dIdx (k + i) with
        | Except.error e => Except.error e
        | Except.ok cell => Except.ok (some (SlotState.lesson (k + i) (toDateToday s.1)
            (toDateToday s.2) (jsOr cell "frei"))) := by
  intro l
  induction l with
  | nil => intro k i s _ hi; simp at hi
  | cons a rest ih =>
    intro k i s hwf hi h1 h2
    cases i with
    | zero =>
      simp at hi
      subst hi
      simp [lessonLoop, h1, h2]
    | succ j =>
      simp at hi
      have hmem : s ∈ rest := List.getElem?_mem hi
      have h3 := wellFormed_end_le_start hwf s hmem
      have hno : ¬ (toDateToday a.1 ≤ now ∧ now < toDateToday a.2) := by omega
      rw [lessonLoop]
      simp only [hno, if_false]
      rw [ih (k + 1) j s (wellFormed_tail hwf) hi h1 h2]
      have : k + 1 + j = k + (j + 1) := by omega
      rw [this]

theorem lessonLoop_none_before (week : List (List String)) (dIdx now : Nat) :
    ∀ (l : List (HM × HM)) (k : Nat), wellFormed l = true →
      (∀ first, l.head? = some first → now < toDateToday first.1) →
      lessonLoop week dIdx now l k = Except.ok Option.none := by
  intro l
  induction l with
  | nil => intro k _ _; rfl
  | cons a rest ih =>
    intro k hwf hb
    have h1 := hb a rfl
    have hno : ¬ (toDateToday a.1 ≤ now ∧ now < toDateToday a.2) := by omega
    rw [lessonLoop]
    simp only [hno, if_false]
    apply ih (k + 1) (wellFormed_tail hwf)
    intro first hf
    have hmem : first ∈ rest := List.mem_of_mem_head? hf
    have h2 := wellFormed_end_le_start hwf first hmem
    have h3 := wellFormed_head_lt hwf
    omega

theorem lessonLoop_none_after (week : List (List String)) (dIdx now : Nat) :
    ∀ (l : List (HM × HM)) (k : Nat), wellFormed l = true →
      (∀ last, l.getLast? = some last → toDateToday last.2 ≤ now) →
      lessonLoop week dIdx now l k = Except.ok Option.none := by
  intro l
  induction l with
  | nil => intro k _ _; rfl
  | cons a rest ih =>
    intro k hwf hb
    obtain ⟨last, hlast⟩ : ∃ last, (a :: rest).getLast? = some last := by
      simp [List.getLast?_cons]
    have h1 := hb last hlast
    have h2 := wellFormed_end_le_last hwf hlast a (List.mem_cons_self _ _)
    have hno : ¬ (toDateToday a.1 ≤ now ∧ now < toDateToday a.2) := by omega
    rw [lessonLoop]
    simp only [hno, if_false]
    apply ih (k + 1) (wellFormed_tail hwf)
    intro last2 hl2
    apply hb
    cases rest with
    | nil => simp at hl2
    | cons b rest2 => simpa [List.getLast?_cons_cons] using hl2

theorem lessonLoop_none_gap (week : List (List String)) (dIdx now : Nat) :
    ∀ (l : List (HM × HM)) (k i : Nat) (s t : HM × HM), wellFormed l = true →
      l[i]? = some s → l[i + 1]? = some t → toDateToday s.2 ≤ now → now < toDateToday t.1 →
      lessonLoop week dIdx now l k = Except.ok Option.none := by
  intro l
  induction l with
  | nil => intro k i s t _ hi; simp at hi
  | cons a rest ih =>
    intro k i s t hwf hi ht h1 h2
    simp at ht
    cases i with
    | zero =>
      simp at hi
      subst hi
      have hno : ¬ (toDateToday a.1 ≤ now ∧ now < toDateToday a.2) := by omega
      rw [lessonLoop]
      simp only [hno, if_false]
      apply lessonLoop_none_before week dIdx now rest (k + 1) (wellFormed_tail hwf)
      intro first hf
      cases rest with
      | nil => simp at hf
      | cons b rest2 =>
        simp at hf ht
        subst hf; subst ht; exact h2
    | succ j =>
      simp at hi
      have hmem : s ∈ rest := List.getElem?_mem hi
      have h3 := wellFormed_end_le_start hwf s hmem
      have h4 := wellFormed_mem_lt (wellFormed_tail hwf) s hmem
      have hno : ¬ (toDateToday a.1 ≤ now ∧ now < toDateToday a.2) := by omega
      rw [lessonLoop]
      simp only [hno, if_false]
      exact ih (k + 1) j s t (wellFormed_tail hwf) hi ht h1 h2

theorem breakLoop_hit (week : List (List String)) (dIdx now : Nat) :
    ∀ (l : List (HM × HM)) (k i : Nat) (s t : HM × HM), wellFormed l = true →
      l[i]? = some s → l[i + 1]? = some t → toDateToday s.2 ≤ now → now < toDateToday t.1 →
      breakLoop week dIdx now l k =
        match getCell week dIdx (k + i + 1) with
        | Except.error e => Except.error e
        | Except.ok cell =>
          Except.ok (some (SlotState.brk (k + i) (toDateToday t.1) (jsOr cell ""))) := by
  intro l
  induction l with
  | nil => intro k i s t _ hi; simp at hi
  | cons a rest ih =>
    intro k i s t hwf hi ht h1 h2
    simp at ht
    cases rest with
    | nil => simp at ht
    | cons b rest2 =>
      cases i with
      | zero =>
        simp at hi ht
        subst hi; subst ht
        simp [breakLoop, h1, h2]
      | succ j =>
        simp at hi
        have hmem : s ∈ b :: rest2 := List.getElem?_mem hi
        have h3 := wellFormed_start_le_start (wellFormed_tail hwf) s hmem
        have h4 := wellFormed_mem_lt (wellFormed_tail hwf) s hmem
        have hno : ¬ (toDateToday a.2 ≤ now ∧ now < toDateToday b.1) := by omega
        rw [breakLoop]
        simp only [hno, if_false]
        rw [ih (k + 1) j s t (wellFormed_tail hwf) hi ht h1 h2]
        have : k + 1 + j = k + (j + 1) := by omega
        rw [this]

theorem breakLoop_none_before (week : List (List String)) (dIdx now : Nat) :
    ∀ (l : List (HM × HM)) (k : Nat), wellFormed l = true →
      (∀ first, l.head? = some first → now < toDateToday first.1) →
      breakLoop week dIdx now l k = Except.ok Option.none := by
  intro l
  induction l with
  | nil => intro k _ _; rfl
  | cons a rest ih =>
    intro k hwf hb
    cases rest with
    | nil => rfl
    | cons b rest2 =>
      have h1 := hb a rfl
      have h2 := wellFormed_head_lt hwf
      have h3 := wellFormed_end_le_start hwf b (List.mem_cons_self _ _)
      have hno : ¬ (toDateToday a.2 ≤ now ∧ now < toDateToday b.1) := by omega
      rw [breakLoop]
      simp only [hno, if_false]
      apply ih (k + 1) (wellFormed_tail hwf)
      intro first hf
      simp at hf
      subst hf
      omega

theorem breakLoop_none_after (week : List (List String)) (dIdx now : Nat) :
    ∀ (l : List (HM × HM)) (k : Nat), wellFormed l = true →
      (∀ last, l.getLast? = some last → toDateToday last.2 ≤ now) →
      breakLoop week dIdx now l k = Except.ok Option.none := by
  intro l
  induction l with
  | nil => intro k _ _; rfl
  | cons a rest ih =>
    intro k hwf hb
    cases rest with
    | nil => rfl
    | cons b rest2 =>
      obtain ⟨last, hlast⟩ : ∃ last, (b :: rest2).getLast? = some last := by
        simp [List.getLast?_cons]
      have hlast2 : (a :: b :: rest2).getLast? = some last := by
        simpa [List.getLast?_cons_cons] using hlast
      have h1 := hb last hlast2
      have h2 := wellFormed_end_le_last (wellFormed_tail hwf) hlast b (List.mem_cons_self _ _)
      have h3 := wellFormed_head_lt (wellFormed_tail hwf)
      have hno : ¬ (toDateToday a.2 ≤ now ∧ now < toDateToday b.1) := by omega
      rw [breakLoop]
      simp only [hno, if_false]
      apply ih (k + 1) (wellFormed_tail hwf)
      intro last2 hl2
      apply hb
      simpa [List.getLast?_cons_cons] using hl2

theorem getCell_row {week : List (List String)} {d : Nat} {row : List String}
    (h : week[d]? = some row) (i : Nat) : getCell week d i = Except.ok row[i]? := by
  simp [getCell, h]

/-! ## Slot resolution -/

/-- C1: on a weekday, with a strictly increasing non-overlapping slot table
and `start_i <= now < end_i`, `findCurrentSlot` returns the lesson state of
slot `i` with that slot's bounds; the subject is the code `week[d][i]` when it
is a non-empty string and `"frei"` when the cell is empty or absent. -/
theorem findCurrentSlot_lesson (slotTimes : List (HM × HM)) (week : List (List String))
    (now : JsDate) (row : List String) (i : Nat) (s : HM × HM)
    (hwf : wellFormed slotTimes = true) (hd : todayIndex now ≤ 4)
    (hrow : week[todayIndex now]? = some row) (hi : slotTimes[i]? = some s)
    (h1 : toDateToday s.1 ≤ now.ms) (h2 : now.ms < toDateToday s.2) :
    ∃ subject, findCurrentSlot slotTimes week now
        = Except.ok (SlotState.lesson i (toDateToday s.1) (toDateToday s.2) subject)
      ∧ (∀ c, row[i]? = some c → c ≠ "" → subject = c)
      ∧ (row[i]? = some "" ∨ row[i]? = Option.none → subject = "frei") := by
  refine ⟨jsOr row[i]? "frei", ?_, ?_, ?_⟩
  · have h := lessonLoop_hit week (todayIndex now) now.ms slotTimes 0 i s hwf hi h1 h2
    rw [getCell_row hrow] at h
    simp only [Nat.zero_add] at h
    have hd2 : ¬ todayIndex now > 4 := by omega
    simp only [findCurrentSlot, hd2, if_false, h]
  · intro c hc hne
    simp [jsOr, hc, hne]
  · rintro (hc | hc) <;> simp [jsOr, hc]

/-- Witness of C1: Monday row `["MA","D"]`, 07:45:00, reference slot table. -/
theorem findCurrentSlot_lesson_witness :
    ∃ subject, findCurrentSlot slotTimes [["MA", "D"]] ⟨1, clock 7 45 0⟩
        = Except.ok (SlotState.lesson 0 (clock 7 30 0) (clock 8 15 0) subject)
      ∧ (∀ c, ["MA", "D"][0]? = some c → c ≠ "" → subject = c)
      ∧ (["MA", "D"][0]? = some "" ∨ ["MA", "D"][0]? = Option.none → subject = "frei") :=
  findCurrentSlot_lesson slotTimes [["MA", "D"]] ⟨1, clock 7 45 0⟩ ["MA", "D"] 0
    (⟨7, 30⟩, ⟨8, 15⟩) (by decide) (by decide) (by decide) (by decide) (by decide) (by decide)

/-- C2: on a weekday, with a strictly increasing non-overlapping slot table
and `end_i <= now < start_(i+1)`, `findCurrentSlot` returns the break state
with `after = i`, `end = start_(i+1)` and `nextSubject = week[d][i+1]` (the
empty string when that cell is empty or absent); in particular the result is
no lesson state. -/
theorem findCurrentSlot_break (slotTimes : List (HM × HM)) (week : List (List String))
    (now : JsDate) (row : List String) (i : Nat) (s t : HM × HM)
    (hwf : wellFormed slotTimes = true) (hd : todayIndex now ≤ 4)
    (hrow : week[todayIndex now]? = some row)
    (hi : slotTimes[i]? = some s) (ht : slotTimes[i + 1]? = some t)
    (h1 : toDateToday s.2 ≤ now.ms) (h2 : now.ms < toDateToday t.1) :
    findCurrentSlot slotTimes week now
        = Except.ok (SlotState.brk i (toDateToday t.1) (row[i + 1]?.getD ""))
      ∧ ∀ j a b c, findCurrentSlot slotTimes week now ≠ Except.ok (SlotState.lesson j a b c) := by
  have hl := lessonLoop_none_gap week (todayIndex now) now.ms slotTimes 0 i s t hwf hi ht h1 h2
  have hb := breakLoop_hit week (todayIndex now) now.ms slotTimes 0 i s t hwf hi ht h1 h2
  rw [getCell_row hrow] at hb
  simp only [Nat.zero_add] at hb
  have hd2 : ¬ todayIndex now > 4 := by omega
  have hsub : jsOr row[i + 1]? "" = row[i + 1]?.getD "" := by
    cases hc : row[i + 1]? with
    | none => simp [jsOr]
    | some c =>
      by_cases hcc : c = "" <;> simp [jsOr, hcc]
  have key : findCurrentSlot slotTimes week now
      = Except.ok (SlotState.brk i (toDateToday t.1) (row[i + 1]?.getD "")) := by
    simp only [findCurrentSlot, hd2, if_false, hl, hb, hsub]
  refine ⟨key, ?_⟩
  intro j a b c hcontra
  rw [key] at hcontra
  cases hcontra

/-- Witness of C2: Monday, 08:15:00 sharp (the instant slot 0 ends), default week. -/
theorem findCurrentSlot_break_witness :
    findCurrentSlot slotTimes defaultWeek ⟨1, clock 8 15 0⟩
        = Except.ok (SlotState.brk 0 (clock 8 20 0) "D")
      ∧ ∀ j a b c, findCurrentSlot slotTimes defaultWeek ⟨1, clock 8 15 0⟩
          ≠ Except.ok (SlotState.lesson j a b c) :=
  findCurrentSlot_break slotTimes defaultWeek ⟨1, clock 8 15 0⟩
    ["", "D", "MA", "MA", "NT", "", "", "E", "G", "MI", "BS", ""] 0
    (⟨7, 30⟩, ⟨8, 15⟩) (⟨8, 20⟩, ⟨9, 5⟩)
    (by decide) (by decide) (by decide) (by decide) (by decide) (by decide) (by decide)

/-- C3: on a calendar Saturday or Sunday (`getDay` 6 or 0, day-index 5 or 6),
for every slot table and week table, `findCurrentSlot` returns the weekend
state, `countLessons` returns `{total: 0, remaining: 0}` and
`calculateProgress('week')` returns 100. -/
theorem weekend_results (slotTimes : List (HM × HM)) (week : List (List String))
    (now : JsDate) (h : now.getDay = 6 ∨ now.getDay = 0) :
    (todayIndex now = 5 ∨ todayIndex now = 6)
      ∧ findCurrentSlot slotTimes week now = Except.ok SlotState.weekend
      ∧ countLessons slotTimes week now = Except.ok ⟨0, 0⟩
      ∧ calculateProgress slotTimes "week" now = Except.ok 100 := by
  obtain ⟨g, ms⟩ := now
  simp only at h
  rcases h with rfl | rfl
  · have h5 : todayIndex ⟨6, ms⟩ = 5 := by
      show ((6 : Fin 7).val + 6) % 7 = 5
      decide
    refine ⟨Or.inl h5, ?_, ?_, ?_⟩
    · simp [findCurrentSlot, h5]
    · simp [countLessons, h5]
    · simp [calculateProgress, h5]
  · have h6 : todayIndex ⟨0, ms⟩ = 6 := rfl
    refine ⟨Or.inr h6, ?_, ?_, ?_⟩
    · simp [findCurrentSlot, h6]
    · simp [countLessons, h6]
    · simp [calculateProgress, h6]

/-- Witness of C3: Sunday noon with the reference table and the default week. -/
theorem weekend_results_witness :
    (todayIndex ⟨0, clock 12 0 0⟩ = 5 ∨ todayIndex ⟨0, clock 12 0 0⟩ = 6)
      ∧ findCurrentSlot slotTimes defaultWeek ⟨0, clock 12 0 0⟩ = Except.ok SlotState.weekend
      ∧ countLessons slotTimes defaultWeek ⟨0, clock 12 0 0⟩ = Except.ok ⟨0, 0⟩
      ∧ calculateProgress slotTimes "week" ⟨0, clock 12 0 0⟩ = Except.ok 100 :=
  weekend_results slotTimes defaultWeek ⟨0, clock 12 0 0⟩ (Or.inr rfl)

theorem dayBranch_before {slotTimes : List (HM × HM)} {first : HM × HM}
    (hf : slotTimes.head? = some first) (now : Nat) (h : now < toDateToday first.1) :
    dayBranch slotTimes now = Except.ok 0 := by
  cases slotTimes with
  | nil => simp at hf
  | cons a rest =>
    simp at hf
    subst hf
    obtain ⟨last, hlast⟩ : ∃ last, (a :: rest).getLast? = some last := by
      simp [List.getLast?_cons]
    simp [dayBranch, hlast, h]

theorem dayBranch_after {slotTimes : List (HM × HM)} {last : HM × HM}
    (hwf : wellFormed slotTimes = true) (hl : slotTimes.getLast? = some last) (now : Nat)
    (h : toDateToday last.2 ≤ now) : dayBranch slotTimes now = Except.ok 100 := by
  cases slotTimes with
  | nil => simp at hl
  | cons a rest =>
    have h1 := wellFormed_end_le_last hwf hl a (List.mem_cons_self _ _)
    have h2 := wellFormed_head_lt hwf
    have h3 : ¬ now < toDateToday a.1 := by omega
    simp [dayBranch, hl, h3, h]

/-- C4: on a weekday, for every week table and a strictly increasing
non-overlapping slot table: before the first slot's start
`calculateProgress('day')` is 0 and `findCurrentSlot` is the `none` state; at
or after the last slot's end `calculateProgress('day')` is 100 and
`findCurrentSlot` is the `none` state. -/
theorem outside_school_day (slotTimes : List (HM × HM)) (week : List (List String))
    (now : JsDate) (first last : HM × HM)
    (hwf : wellFormed slotTimes = true) (hd : todayIndex now ≤ 4)
    (hf : slotTimes.head? = some first) (hl : slotTimes.getLast? = some last) :
    (now.ms < toDateToday first.1 →
        calculateProgress slotTimes "day" now = Except.ok 0
          ∧ findCurrentSlot slotTimes week now = Except.ok SlotState.none)
      ∧ (toDateToday last.2 ≤ now.ms →
        calculateProgress slotTimes "day" now = Except.ok 100
          ∧ findCurrentSlot slotTimes week now = Except.ok SlotState.none) := by
  have hd2 : ¬ todayIndex now > 4 := by omega
  constructor
  · intro h
    have hb : ∀ f, slotTimes.head? = some f → now.ms < toDateToday f.1 := by
      intro f hf2
      rw [hf] at hf2
      cases hf2
      exact h
    constructor
    · simp only [calculateProgress, hd2, if_false, if_true, dayBranch_before hf now.ms h]
    · simp only [findCurrentSlot, hd2, if_false,
        lessonLoop_none_before week (todayIndex now) now.ms slotTimes 0 hwf hb,
        breakLoop_none_before week (todayIndex now) now.ms slotTimes 0 hwf hb]
  · intro h
    have hb : ∀ f, slotTimes.getLast? = some f → toDateToday f.2 ≤ now.ms := by
      intro f hf2
      rw [hl] at hf2
      cases hf2
      exact h
    constructor
    · simp only [calculateProgress, hd2, if_false, if_true, dayBranch_after hwf hl now.ms h]
    · simp only [findCurrentSlot, hd2, if_false,
        lessonLoop_none_after week (todayIndex now) now.ms slotTimes 0 hwf hb,
        breakLoop_none_after week (todayIndex now) now.ms slotTimes 0 hwf hb]

/-- Witness of C4: the reference table on a Wednesday with an empty week table. -/
theorem outside_school_day_witness :
    (clock 6 0 0 < clock 7 30 0 →
        calculateProgress slotTimes "day" ⟨3, clock 6 0 0⟩ = Except.ok 0
          ∧ findCurrentSlot slotTimes [] ⟨3, clock 6 0 0⟩ = Except.ok SlotState.none)
      ∧ (clock 17 55 0 ≤ clock 6 0 0 →
        calculateProgress slotTimes "day" ⟨3, clock 6 0 0⟩ = Except.ok 100
          ∧ findCurrentSlot slotTimes [] ⟨3, clock 6 0 0⟩ = Except.ok SlotState.none) :=
  outside_school_day slotTimes [] ⟨3, clock 6 0 0⟩ (⟨7, 30⟩, ⟨8, 15⟩) (⟨17, 10⟩, ⟨17, 55⟩)
    (by decide) (by decide) (by decide) (by decide)

/-- C8, as stated, fails: with slots 07:30-08:15 and 08:20-09:05 and Monday
row `["MA","D"]`, resolving at Monday 08:00:00 does not give a break after
slot 0 with next subject `"D"`. -/
theorem scenario_not_break :
    ¬ ∃ e, findCurrentSlot scenarioSlots [["MA", "D"]] ⟨1, clock 8 0 0⟩
        = Except.ok (SlotState.brk 0 e "D") := by
  rintro ⟨e, he⟩
  have h : findCurrentSlot scenarioSlots [["MA", "D"]] ⟨1, clock 8 0 0⟩
      = Except.ok (SlotState.lesson 0 (clock 7 30 0) (clock 8 15 0) "MA") := by decide
  rw [h] at he
  cases he

/-- C8 amended: in the scenario, Monday 08:00:00 lies inside slot 0 and
resolves to the lesson state of slot 0 with subject `"MA"`; the break after
slot 0 with next subject `"D"`, ending 08:20, is the result exactly for
08:15:00 <= now < 08:20:00. -/
theorem scenario_resolve :
    findCurrentSlot scenarioSlots [["MA", "D"]] ⟨1, clock 8 0 0⟩
        = Except.ok (SlotState.lesson 0 (clock 7 30 0) (clock 8 15 0) "MA")
      ∧ ∀ ms, (clock 8 15 0 ≤ ms ∧ ms < clock 8 20 0) ↔
          findCurrentSlot scenarioSlots [["MA", "D"]] ⟨1, ms⟩
            = Except.ok (SlotState.brk 0 (clock 8 20 0) "D") := by
  refine ⟨by decide, ?_⟩
  intro ms
  simp only [findCurrentSlot, scenarioSlots, lessonLoop, breakLoop, toDateToday, clock,
    todayIndex, getCell]
  constructor
  · rintro ⟨h1, h2⟩
    have a1 : ¬ (ms < 29700000) := by omega
    have a2 : ¬ (30000000 ≤ ms) := by omega
    simp [a1, a2, h1, h2, jsOr]
  · intro h
    by_contra hc
    by_cases b1 : 27000000 ≤ ms ∧ ms < 29700000
    · simp [b1] at h
    · by_cases b2 : 30000000 ≤ ms ∧ ms < 32700000
      · simp [b1, b2] at h
      · by_cases b3 : 29700000 ≤ ms ∧ ms < 30000000
        · exact hc b3
        · simp [b1, b2, b3] at h

/-! ## Progress -/

theorem mathRound_nested (d : ℕ) (x : ℚ) :
    mathRound ((((d : ℚ) + ((mathRound (100 * x) : ℤ) : ℚ) / 100) / 5) * 100)
      = mathRound (100 * ((d : ℚ) + x) / 5) := by
  unfold mathRound
  set P : ℤ := ⌊100 * x + 1 / 2⌋ with hP
  set n : ℤ := ⌊100 * ((d : ℚ) + x) / 5 + 1 / 2⌋ with hn
  have hn1 : (n : ℚ) ≤ 100 * ((d : ℚ) + x) / 5 + 1 / 2 := Int.floor_le _
  have hn2 : 100 * ((d : ℚ) + x) / 5 + 1 / 2 < (n : ℚ) + 1 := Int.lt_floor_add_one _
  have hlo : 5 * n - 100 * (d : ℤ) - 2 ≤ P := by
    rw [hP, Int.le_floor]
    push_cast
    linarith
  have hhi : P < 5 * n + 3 - 100 * (d : ℤ) := by
    rw [hP, Int.floor_lt]
    push_cast
    linarith
  have hlo2 : (5 * n - 100 * (d : ℤ) - 2 : ℚ) ≤ (P : ℚ) := by exact_mod_cast hlo
  have hhi2 : (P : ℚ) ≤ (5 * n + 2 - 100 * (d : ℤ) : ℚ) := by
    have : P ≤ 5 * n + 2 - 100 * (d : ℤ) := by omega
    exact_mod_cast this
  rw [Int.floor_eq_iff]
  constructor
  · push_cast at hlo2 ⊢
    linarith
  · push_cast at hhi2 ⊢
    linarith

theorem dayFraction_bounds (dayStart dayEnd now : Nat) :
    0 ≤ dayFraction dayStart dayEnd now ∧ dayFraction dayStart dayEnd now ≤ 1 := by
  unfold dayFraction
  by_cases h1 : now < dayStart
  · simp [h1]
  · by_cases h2 : dayEnd ≤ now
    · simp [h1, h2]
    · simp only [h1, h2, if_false]
      have a1 : (dayStart : ℚ) ≤ now := by exact_mod_cast (Nat.le_of_not_lt h1)
      have a2 : (now : ℚ) < dayEnd := by exact_mod_cast (Nat.lt_of_not_le h2)
      have a3 : (0 : ℚ) < (dayEnd : ℚ) - dayStart := by linarith
      constructor
      · exact div_nonneg (by linarith) (le_of_lt a3)
      · rw [div_le_one a3]
        linarith



/-! ## Double arithmetic -/

theorem roundHalfEven_err (y : ℚ) :
    (roundHalfEven y : ℚ) - y ≤ 1 / 2 ∧ y - (roundHalfEven y : ℚ) ≤ 1 / 2 := by
  have h1 : ((⌊y⌋ : ℤ) : ℚ) ≤ y := Int.floor_le y
  have h2 : y < ((⌊y⌋ : ℤ) : ℚ) + 1 := Int.lt_floor_add_one y
  unfold roundHalfEven
  simp only
  split_ifs with a b c
  · constructor <;> linarith
  · push_cast
    constructor <;> linarith
  · constructor <;> linarith
  · push_cast
    constructor <;> linarith

theorem roundHalfEven_nonneg (y : ℚ) (h : 0 ≤ y) : 0 ≤ roundHalfEven y := by
  have h0 : 0 ≤ ⌊y⌋ := Int.floor_nonneg.mpr h
  unfold roundHalfEven
  simp only
  split_ifs <;> omega

theorem roundHalfEven_int (z : ℤ) : roundHalfEven (z : ℚ) = z := by
  unfold roundHalfEven
  simp

theorem normShift_reach : ∀ (fuel : Nat) (y : ℚ),
    (2 : ℚ) ^ 52 ≤ y * 2 ^ normShift fuel y ∨ normShift fuel y = fuel := by
  intro fuel
  induction fuel with
  | zero => intro y; right; rfl
  | succ n ih =>
    intro y
    by_cases h : (2 : ℚ) ^ 52 ≤ y
    · left
      simp [normShift, h]
    · rcases ih (2 * y) with h1 | h1
      · left
        simp only [normShift, h, if_false]
        have e : y * 2 ^ (normShift n (2 * y) + 1) = 2 * y * 2 ^ normShift n (2 * y) := by ring
        rw [e]
        exact h1
      · right
        simp only [normShift, h, if_false, h1]

theorem toDouble_nonneg (x : ℚ) (h0 : 0 ≤ x) (h1 : x < 2 ^ 53) : 0 ≤ toDouble x := by
  unfold toDouble
  have habs : |x| < 2 ^ 53 := by rwa [abs_of_nonneg h0]
  simp only [habs, if_true]
  apply div_nonneg
  · have := roundHalfEven_nonneg (x * 2 ^ normShift 1074 |x|) (by positivity)
    exact_mod_cast this
  · positivity

theorem toDouble_err (x : ℚ) (h0 : 0 ≤ x) (h1 : x < 2 ^ 53) :
    x - x / 2 ^ 53 - 1 / 2 ^ 1075 ≤ toDouble x ∧ toDouble x ≤ x + x / 2 ^ 53 + 1 / 2 ^ 1075 := by
  unfold toDouble
  have habs : |x| < 2 ^ 53 := by rwa [abs_of_nonneg h0]
  simp only [habs, if_true]
  rw [abs_of_nonneg h0]
  set k := normShift 1074 x with hk
  have hpos : (0 : ℚ) < 2 ^ k := by positivity
  obtain ⟨e1, e2⟩ := roundHalfEven_err (x * 2 ^ k)
  have key : (1 : ℚ) / 2 ≤ (x / 2 ^ 53 + 1 / 2 ^ 1075) * 2 ^ k := by
    rcases normShift_reach 1074 x with h | h
    · rw [← hk] at h
      have : (0 : ℚ) ≤ 1 / 2 ^ 1075 * 2 ^ k := by positivity
      have e : x / 2 ^ 53 * 2 ^ k = x * 2 ^ k / 2 ^ 53 := by ring
      rw [add_mul, e]
      have : (1 : ℚ) / 2 ≤ x * 2 ^ k / 2 ^ 53 := by
        rw [le_div_iff₀ (by positivity)]
        have : (1 : ℚ) / 2 * 2 ^ 53 = 2 ^ 52 := by norm_num
        rw [this]
        exact h
      linarith
    · rw [← hk] at h
      rw [h]
      have : (0 : ℚ) ≤ x / 2 ^ 53 * 2 ^ 1074 := by positivity
      have e : (1 : ℚ) / 2 ^ 1075 * 2 ^ 1074 = 1 / 2 := by norm_num
      rw [add_mul, e]
      linarith
  constructor
  · rw [le_div_iff₀ hpos]
    have : (x - x / 2 ^ 53 - 1 / 2 ^ 1075) * 2 ^ k
        = x * 2 ^ k - (x / 2 ^ 53 + 1 / 2 ^ 1075) * 2 ^ k := by ring
    rw [this]
    linarith
  · rw [div_le_iff₀ hpos]
    have : (x + x / 2 ^ 53 + 1 / 2 ^ 1075) * 2 ^ k
        = x * 2 ^ k + (x / 2 ^ 53 + 1 / 2 ^ 1075) * 2 ^ k := by ring
    rw [this]
    linarith

theorem toDouble_int (z : ℤ) (h : |(z : ℚ)| < 2 ^ 53) : toDouble (z : ℚ) = z := by
  unfold toDouble
  simp only [h, if_true]
  set k := normShift 1074 |(z : ℚ)|
  have e : (z : ℚ) * 2 ^ k = ((z * 2 ^ k : ℤ) : ℚ) := by push_cast; ring
  rw [e, roundHalfEven_int]
  push_cast
  field_simp

theorem toDouble_near (x : ℚ) (h0 : 0 ≤ x) (h1 : x ≤ 128) :
    x - 1 / 2 ^ 45 ≤ toDouble x ∧ toDouble x ≤ x + 1 / 2 ^ 45 := by
  have hlt : x < 2 ^ 53 := by
    have : (128 : ℚ) < 2 ^ 53 := by norm_num
    linarith
  obtain ⟨e1, e2⟩ := toDouble_err x h0 hlt
  have a : x / 2 ^ 53 ≤ 128 / 2 ^ 53 := by
    apply div_le_div_of_nonneg_right h1
    positivity
  have b : (128 : ℚ) / 2 ^ 53 + 1 / 2 ^ 1075 ≤ 1 / 2 ^ 45 := by norm_num
  constructor <;> linarith

theorem toDouble_natSub (m n : ℕ) (h1 : n ≤ m) (h2 : m < 2 ^ 53) :
    toDouble ((m : ℚ) - n) = (m : ℚ) - n := by
  have hn : (n : ℚ) ≤ m := by exact_mod_cast h1
  have hm : (m : ℚ) < 2 ^ 53 := by exact_mod_cast h2
  have hn0 : (0 : ℚ) ≤ n := Nat.cast_nonneg n
  have h := toDouble_int ((m : ℤ) - n) (by
    push_cast
    rw [abs_of_nonneg (by linarith)]
    linarith)
  push_cast at h
  exact h

theorem mathRound_le_succ (x y : ℚ) (h : x ≤ y + 1) : mathRound x ≤ mathRound y + 1 := by
  unfold mathRound
  rw [← Int.floor_add_one]
  apply Int.floor_mono
  linarith

theorem interp_near (a b : ℕ) (hab : a ≤ b) (hb : 0 < b) :
    100 * ((a : ℚ) / b) - 1 / 2 ^ 38 ≤ toDouble (toDouble ((a : ℚ) / b) * 100)
      ∧ toDouble (toDouble ((a : ℚ) / b) * 100) ≤ 100 * ((a : ℚ) / b) + 1 / 2 ^ 38 := by
  have hb0 : (0 : ℚ) < b := by exact_mod_cast hb
  have hr0 : (0 : ℚ) ≤ (a : ℚ) / b := div_nonneg (Nat.cast_nonneg a) (le_of_lt hb0)
  have hr1 : (a : ℚ) / b ≤ 1 := by
    rw [div_le_one hb0]
    exact_mod_cast hab
  obtain ⟨q1, q2⟩ := toDouble_near ((a : ℚ) / b) hr0 (by linarith)
  have q0 : 0 ≤ toDouble ((a : ℚ) / b) :=
    toDouble_nonneg _ hr0 (by
      have : (1 : ℚ) < 2 ^ 53 := by norm_num
      linarith)
  have c1 : (1 : ℚ) / 2 ^ 45 ≤ 1 / 100 := by norm_num
  obtain ⟨x1, x2⟩ := toDouble_near (toDouble ((a : ℚ) / b) * 100) (by linarith) (by linarith)
  have c2 : (101 : ℚ) * (1 / 2 ^ 45) ≤ 1 / 2 ^ 38 := by norm_num
  constructor <;> linarith

theorem toDouble_half : toDouble (toDouble (1 / 200) * 100) = 1 / 2 := by decide!

theorem toDouble_top : toDouble (toDouble (199 / 200) * 100) = 199 / 2 := by decide!

theorem interp_round (a b : ℕ) (hab : a < b) (hb : b ≤ 86400000) :
    0 ≤ mathRound (toDouble (toDouble ((a : ℚ) / b) * 100))
      ∧ mathRound (toDouble (toDouble ((a : ℚ) / b) * 100)) ≤ 100
      ∧ (0 < mathRound (toDouble (toDouble ((a : ℚ) / b) * 100)) ↔ b ≤ 200 * a)
      ∧ (mathRound (toDouble (toDouble ((a : ℚ) / b) * 100)) < 100 ↔ 200 * a < 199 * b)
      ∧ mathRound (toDouble (toDouble ((a : ℚ) / b) * 100)) ≤ mathRound (100 * ((a : ℚ) / b)) + 1
      ∧ mathRound (100 * ((a : ℚ) / b)) ≤ mathRound (toDouble (toDouble ((a : ℚ) / b) * 100)) + 1 := by
  have hbpos : 0 < b := by omega
  have hb0 : (0 : ℚ) < b := by exact_mod_cast hbpos
  have hbB : (b : ℚ) ≤ 86400000 := by exact_mod_cast hb
  obtain ⟨n1, n2⟩ := interp_near a b (le_of_lt hab) hbpos
  set x := toDouble (toDouble ((a : ℚ) / b) * 100) with hx
  have hr0 : (0 : ℚ) ≤ (a : ℚ) / b := div_nonneg (Nat.cast_nonneg a) (le_of_lt hb0)
  have hr1 : (a : ℚ) / b ≤ 1 := by
    rw [div_le_one hb0]
    exact_mod_cast (le_of_lt hab)
  have hinv : (1 : ℚ) / 172800000 ≤ 1 / (2 * b) := by
    apply one_div_le_one_div_of_le (by linarith)
    linarith
  have cδ : (1 : ℚ) / 2 ^ 38 < 1 / 172800000 := by norm_num
  refine ⟨?_, ?_, ?_, ?_, ?_, ?_⟩
  · unfold mathRound
    rw [Int.le_floor]
    push_cast
    linarith
  · unfold mathRound
    have : ⌊x + 1 / 2⌋ < 101 := by
      rw [Int.floor_lt]
      push_cast
      linarith
    omega
  · unfold mathRound
    rw [show (0 : ℤ) < ⌊x + 1 / 2⌋ ↔ (1 : ℤ) ≤ ⌊x + 1 / 2⌋ from Iff.rfl, Int.le_floor]
    push_cast
    constructor
    · intro h
      by_contra hc
      have hc2 : 200 * a + 1 ≤ b := by omega
      have hc3 : (200 : ℚ) * a + 1 ≤ b := by exact_mod_cast hc2
      have e : 1 / 2 - 1 / (2 * (b : ℚ)) - 100 * ((a : ℚ) / b)
          = ((b : ℚ) - (200 * a + 1)) / (2 * b) := by
        field_simp
        ring
      have : 0 ≤ 1 / 2 - 1 / (2 * (b : ℚ)) - 100 * ((a : ℚ) / b) := by
        rw [e]
        exact div_nonneg (by linarith) (by linarith)
      linarith
    · intro h
      rcases Nat.eq_or_lt_of_le h with heq | hlt
      · have hq : (a : ℚ) / b = 1 / 200 := by
          have : (b : ℚ) = 200 * a := by exact_mod_cast heq
          rw [this]
          have ha : (a : ℚ) ≠ 0 := by
            intro h0
            rw [h0] at this
            linarith
          field_simp
          ring
        rw [hx, hq, toDouble_half]
        norm_num
      · have hc2 : b + 1 ≤ 200 * a := by omega
        have hc3 : (b : ℚ) + 1 ≤ 200 * a := by exact_mod_cast hc2
        have e : 100 * ((a : ℚ) / b) - (1 / 2 + 1 / (2 * (b : ℚ)))
            = ((200 : ℚ) * a - (b + 1)) / (2 * b) := by
          field_simp
          ring
        have : 0 ≤ 100 * ((a : ℚ) / b) - (1 / 2 + 1 / (2 * (b : ℚ))) := by
          rw [e]
          exact div_nonneg (by linarith) (by linarith)
        linarith
  · unfold mathRound
    rw [Int.floor_lt]
    push_cast
    constructor
    · intro h
      by_contra hc
      have hge : 199 * b ≤ 200 * a := by omega
      rcases Nat.eq_or_lt_of_le hge with heq | hlt
      · have hq : (a : ℚ) / b = 199 / 200 := by
          have : (199 : ℚ) * b = 200 * a := by exact_mod_cast heq
          rw [div_eq_div_iff (ne_of_gt hb0) (by norm_num)]
          linarith
        rw [hx, hq, toDouble_top] at h
        norm_num at h
      · have hc2 : 199 * b + 1 ≤ 200 * a := by omega
        have hc3 : (199 : ℚ) * b + 1 ≤ 200 * a := by exact_mod_cast hc2
        have e : 100 * ((a : ℚ) / b) - (199 / 2 + 1 / (2 * (b : ℚ)))
            = ((200 : ℚ) * a - (199 * b + 1)) / (2 * b) := by
          field_simp
          ring
        have : 0 ≤ 100 * ((a : ℚ) / b) - (199 / 2 + 1 / (2 * (b : ℚ))) := by
          rw [e]
          exact div_nonneg (by linarith) (by linarith)
        linarith
    · intro h
      have hc2 : 200 * a + 1 ≤ 199 * b := by omega
      have hc3 : (200 : ℚ) * a + 1 ≤ 199 * b := by exact_mod_cast hc2
      have e : 199 / 2 - 1 / (2 * (b : ℚ)) - 100 * ((a : ℚ) / b)
          = ((199 : ℚ) * b - (200 * a + 1)) / (2 * b) := by
        field_simp
        ring
      have : 0 ≤ 199 / 2 - 1 / (2 * (b : ℚ)) - 100 * ((a : ℚ) / b) := by
        rw [e]
        exact div_nonneg (by linarith) (by linarith)
      linarith
  · apply mathRound_le_succ
    have : (1 : ℚ) / 2 ^ 38 ≤ 1 := by norm_num
    linarith
  · apply mathRound_le_succ
    have : (1 : ℚ) / 2 ^ 38 ≤ 1 := by norm_num
    linarith

theorem week_round (d : ℕ) (P : ℤ) (hd : d ≤ 4) (hP0 : 0 ≤ P) (hP1 : P ≤ 100) :
    mathRound (toDouble (toDouble (toDouble ((d : ℚ) + toDouble ((P : ℚ) / 100)) / 5) * 100))
      = mathRound (100 * ((d : ℚ) + (P : ℚ) / 100) / 5) := by
  have hd0 : (0 : ℚ) ≤ d := Nat.cast_nonneg d
  have hd4 : (d : ℚ) ≤ 4 := by exact_mod_cast hd
  have p0 : (0 : ℚ) ≤ P := by exact_mod_cast hP0
  have p1 : (P : ℚ) ≤ 100 := by exact_mod_cast hP1
  have big : (128 : ℚ) < 2 ^ 53 := by norm_num
  have c1 : (1 : ℚ) / 2 ^ 45 ≤ 1 / 1000 := by norm_num
  obtain ⟨a1, a2⟩ := toDouble_near ((P : ℚ) / 100) (by linarith) (by linarith)
  have a0 := toDouble_nonneg ((P : ℚ) / 100) (by linarith) (by linarith)
  set y1 := toDouble ((P : ℚ) / 100) with hy1
  obtain ⟨b1, b2⟩ := toDouble_near ((d : ℚ) + y1) (by linarith) (by linarith)
  have b0 := toDouble_nonneg ((d : ℚ) + y1) (by linarith) (by linarith)
  set y2 := toDouble ((d : ℚ) + y1) with hy2
  obtain ⟨e1, e2⟩ := toDouble_near (y2 / 5) (by linarith) (by linarith)
  have e0 := toDouble_nonneg (y2 / 5) (by linarith) (by linarith)
  set y3 := toDouble (y2 / 5) with hy3
  obtain ⟨f1, f2⟩ := toDouble_near (y3 * 100) (by linarith) (by linarith)
  set y4 := toDouble (y3 * 100) with hy4
  unfold mathRound
  set n : ℤ := ⌊100 * ((d : ℚ) + (P : ℚ) / 100) / 5 + 1 / 2⌋ with hn
  have hn1 : (n : ℚ) ≤ 100 * ((d : ℚ) + (P : ℚ) / 100) / 5 + 1 / 2 := Int.floor_le _
  have hn2 : 100 * ((d : ℚ) + (P : ℚ) / 100) / 5 + 1 / 2 < (n : ℚ) + 1 := Int.lt_floor_add_one _
  have m1 : 10 * n ≤ 200 * (d : ℤ) + 2 * P + 5 := by
    have : ((10 * n : ℤ) : ℚ) ≤ ((200 * (d : ℤ) + 2 * P + 5 : ℤ) : ℚ) := by
      push_cast
      linarith
    exact_mod_cast this
  have m2 : 200 * (d : ℤ) + 2 * P + 5 < 10 * n + 10 := by
    have : ((200 * (d : ℤ) + 2 * P + 5 : ℤ) : ℚ) < ((10 * n + 10 : ℤ) : ℚ) := by
      push_cast
      linarith
    exact_mod_cast this
  have m3 : 10 * n + 1 ≤ 200 * (d : ℤ) + 2 * P + 5 := by omega
  have m4 : 200 * (d : ℤ) + 2 * P + 5 ≤ 10 * n + 9 := by omega
  have q3 : ((10 * n + 1 : ℤ) : ℚ) ≤ ((200 * (d : ℤ) + 2 * P + 5 : ℤ) : ℚ) := by exact_mod_cast m3
  have q4 : ((200 * (d : ℤ) + 2 * P + 5 : ℤ) : ℚ) ≤ ((10 * n + 9 : ℤ) : ℚ) := by exact_mod_cast m4
  push_cast at q3 q4
  rw [Int.floor_eq_iff]
  constructor <;> linarith

theorem dayBranch_inside {slotTimes : List (HM × HM)} {first last : HM × HM}
    (hf : slotTimes.head? = some first) (hl : slotTimes.getLast? = some last) (now : Nat)
    (h1 : toDateToday first.1 ≤ now) (h2 : now < toDateToday last.2)
    (hday : toDateToday last.2 ≤ 86400000) :
    dayBranch slotTimes now = Except.ok (mathRound (toDouble (toDouble
      (((now - toDateToday first.1 : ℕ) : ℚ)
        / ((toDateToday last.2 - toDateToday first.1 : ℕ) : ℚ)) * 100))) := by
  have b1 : ¬ now < toDateToday first.1 := by omega
  have b2 : ¬ now ≥ toDateToday last.2 := by omega
  have big : (86400000 : ℕ) < 2 ^ 53 := by norm_num
  have n1 : now < 2 ^ 53 := by omega
  have n2 : toDateToday last.2 < 2 ^ 53 := by omega
  have n3 : toDateToday first.1 ≤ toDateToday last.2 := by omega
  simp only [dayBranch, hf, hl, b1, b2, if_false]
  rw [toDouble_natSub now (toDateToday first.1) h1 n1,
    toDouble_natSub (toDateToday last.2) (toDateToday first.1) n3 n2,
    Nat.cast_sub h1, Nat.cast_sub n3]

theorem dayBranch_percent {slotTimes : List (HM × HM)} {first last : HM × HM}
    (hf : slotTimes.head? = some first) (hl : slotTimes.getLast? = some last) (now : Nat)
    (hday : toDateToday last.2 ≤ 86400000) :
    ∃ P : ℤ, dayBranch slotTimes now = Except.ok P ∧ 0 ≤ P ∧ P ≤ 100
      ∧ P ≤ mathRound (100 * dayFraction (toDateToday first.1) (toDateToday last.2) now) + 1
      ∧ mathRound (100 * dayFraction (toDateToday first.1) (toDateToday last.2) now) ≤ P + 1 := by
  by_cases c1 : now < toDateToday first.1
  · refine ⟨0, ?_, le_refl _, by norm_num, ?_, ?_⟩
    · simp only [dayBranch, hf, hl, c1, if_true]
    · simp only [dayFraction, c1, if_true, mathRound]
      norm_num
    · simp only [dayFraction, c1, if_true, mathRound]
      norm_num
  · by_cases c2 : toDateToday last.2 ≤ now
    · refine ⟨100, ?_, by norm_num, le_refl _, ?_, ?_⟩
      · simp only [dayBranch, hf, hl, c1, c2, if_false, if_true, ge_iff_le]
      · simp only [dayFraction, c1, c2, if_false, if_true, mathRound]
        norm_num
      · simp only [dayFraction, c1, c2, if_false, if_true, mathRound]
        norm_num
    · have h1 : toDateToday first.1 ≤ now := by omega
      have h2 : now < toDateToday last.2 := by omega
      have n3 : toDateToday first.1 ≤ toDateToday last.2 := by omega
      have hab : now - toDateToday first.1 < toDateToday last.2 - toDateToday first.1 := by omega
      have hb : toDateToday last.2 - toDateToday first.1 ≤ 86400000 := by omega
      obtain ⟨r1, r2, _, _, r5, r6⟩ := interp_round _ _ hab hb
      have hfr : dayFraction (toDateToday first.1) (toDateToday last.2) now
          = ((now - toDateToday first.1 : ℕ) : ℚ)
            / ((toDateToday last.2 - toDateToday first.1 : ℕ) : ℚ) := by
        simp only [dayFraction, c1, c2, if_false]
        rw [Nat.cast_sub h1, Nat.cast_sub n3]
      rw [hfr]
      exact ⟨_, dayBranch_inside hf hl now h1 h2 hday, r1, r2, r5, r6⟩

/-- C5, as stated, fails: on Wednesday 13:29:22.500 the day fraction is
exactly 0.575, so `round(100 * (2 + F) / 5)` is 52 and `round(100 * F)` is 58;
in double arithmetic `0.575 * 100` is below 57.5, `calculateProgress('day')`
returns 57 and `calculateProgress('week')` returns 51. -/
theorem weekProgress_double_rounding :
    todayIndex ⟨3, clock 13 29 22 + 500⟩ = 2
      ∧ dayFraction (clock 7 30 0) (clock 17 55 0) (clock 13 29 22 + 500) = 575 / 1000
      ∧ mathRound (100 * ((2 : ℚ)
          + dayFraction (clock 7 30 0) (clock 17 55 0) (clock 13 29 22 + 500)) / 5) = 52
      ∧ calculateProgress slotTimes "day" ⟨3, clock 13 29 22 + 500⟩ = Except.ok 57
      ∧ calculateProgress slotTimes "week" ⟨3, clock 13 29 22 + 500⟩ = Except.ok 51 := by
  refine ⟨by decide, by decide!, by decide!, by decide!, by decide!⟩

/-- C5 amended: on a weekday with day-index `d`, for a slot table whose times
lie within one day, `calculateProgress('week')` equals
`round(100 * (d + P / 100) / 5)` for the day percentage `P` that
`calculateProgress('day')` returns, and lies in 0..100; `P` is `round(100 * F)`
computed in double arithmetic and is within 1 of the exact `round(100 * F)`,
the week result is within 1 of the exact `round(100 * (d + F) / 5)`, and the
two week values agree whenever the two day values do. -/
theorem weekProgress_double (slotTimes : List (HM × HM)) (now : JsDate) (first last : HM × HM)
    (hd : todayIndex now ≤ 4)
    (hf : slotTimes.head? = some first) (hl : slotTimes.getLast? = some last)
    (hday : toDateToday last.2 ≤ 86400000) :
    ∃ P w : ℤ, calculateProgress slotTimes "day" now = Except.ok P
      ∧ calculateProgress slotTimes "week" now = Except.ok w
      ∧ w = mathRound (100 * ((todayIndex now : ℚ) + (P : ℚ) / 100) / 5)
      ∧ 0 ≤ w ∧ w ≤ 100
      ∧ |P - mathRound (100 * dayFraction (toDateToday first.1) (toDateToday last.2) now.ms)| ≤ 1
      ∧ |w - mathRound (100 * ((todayIndex now : ℚ)
            + dayFraction (toDateToday first.1) (toDateToday last.2) now.ms) / 5)| ≤ 1
      ∧ (P = mathRound (100 * dayFraction (toDateToday first.1) (toDateToday last.2) now.ms) →
          w = mathRound (100 * ((todayIndex now : ℚ)
            + dayFraction (toDateToday first.1) (toDateToday last.2) now.ms) / 5)) := by
  have hd2 : ¬ todayIndex now > 4 := by omega
  have hd3 : ((todayIndex now : ℕ) : ℚ) ≤ 4 := by exact_mod_cast hd
  have hd4 : (0 : ℚ) ≤ ((todayIndex now : ℕ) : ℚ) := Nat.cast_nonneg _
  obtain ⟨P, hP, p0, p1, p2, p3⟩ := dayBranch_percent hf hl now.ms hday
  have q0 : (0 : ℚ) ≤ P := by exact_mod_cast p0
  have q1 : (P : ℚ) ≤ 100 := by exact_mod_cast p1
  have hne : ¬ ("week" = "day") := by decide
  have hnest := mathRound_nested (todayIndex now)
    (dayFraction (toDateToday first.1) (toDateToday last.2) now.ms)
  set P0 := mathRound (100 * dayFraction (toDateToday first.1) (toDateToday last.2) now.ms)
    with hP0
  have q2 : (P : ℚ) ≤ (P0 : ℚ) + 1 := by exact_mod_cast p2
  have q3 : (P0 : ℚ) ≤ (P : ℚ) + 1 := by exact_mod_cast p3
  refine ⟨P, mathRound (100 * ((todayIndex now : ℚ) + (P : ℚ) / 100) / 5), ?_, ?_, rfl,
    ?_, ?_, ?_, ?_, ?_⟩
  · simp only [calculateProgress, hd2, if_false, if_true, hP]
  · simp only [calculateProgress, hd2, if_false, hne, hP]
    rw [week_round (todayIndex now) P hd p0 p1]
  · unfold mathRound
    rw [Int.le_floor]
    push_cast
    linarith
  · unfold mathRound
    have : ⌊100 * ((todayIndex now : ℚ) + (P : ℚ) / 100) / 5 + 1 / 2⌋ < 101 := by
      rw [Int.floor_lt]
      push_cast
      linarith
    omega
  · rw [abs_le]
    constructor <;> omega
  · rw [← hnest, abs_le]
    constructor
    · have := mathRound_le_succ ((((todayIndex now : ℕ) : ℚ) + (P0 : ℚ) / 100) / 5 * 100)
        (100 * ((todayIndex now : ℚ) + (P : ℚ) / 100) / 5) (by linarith)
      omega
    · have := mathRound_le_succ (100 * ((todayIndex now : ℚ) + (P : ℚ) / 100) / 5)
        ((((todayIndex now : ℕ) : ℚ) + (P0 : ℚ) / 100) / 5 * 100) (by linarith)
      omega
  · intro h
    rw [← hnest, h]
    congr 1
    ring

/-- Witness of C5 amended: Tuesday 12:20:00 with the reference table. -/
theorem weekProgress_double_witness :
    ∃ P w : ℤ, calculateProgress slotTimes "day" ⟨2, clock 12 20 0⟩ = Except.ok P
      ∧ calculateProgress slotTimes "week" ⟨2, clock 12 20 0⟩ = Except.ok w
      ∧ w = mathRound (100 * ((todayIndex ⟨2, clock 12 20 0⟩ : ℚ) + (P : ℚ) / 100) / 5)
      ∧ 0 ≤ w ∧ w ≤ 100
      ∧ |P - mathRound (100 * dayFraction (clock 7 30 0) (clock 17 55 0) (clock 12 20 0))| ≤ 1
      ∧ |w - mathRound (100 * ((todayIndex ⟨2, clock 12 20 0⟩ : ℚ)
            + dayFraction (clock 7 30 0) (clock 17 55 0) (clock 12 20 0)) / 5)| ≤ 1
      ∧ (P = mathRound (100 * dayFraction (clock 7 30 0) (clock 17 55 0) (clock 12 20 0)) →
          w = mathRound (100 * ((todayIndex ⟨2, clock 12 20 0⟩ : ℚ)
            + dayFraction (clock 7 30 0) (clock 17 55 0) (clock 12 20 0)) / 5)) :=
  weekProgress_double slotTimes ⟨2, clock 12 20 0⟩ (⟨7, 30⟩, ⟨8, 15⟩) (⟨17, 10⟩, ⟨17, 55⟩)
    (by decide) (by decide) (by decide) (by decide)

/-- C7, as stated, fails: Monday 07:31:00 lies strictly inside slot 0
(07:30-08:15) of the reference table, and `calculateProgress('day')` is 0
there; Monday 17:54:00 lies strictly inside slot 11 and the result is 100. -/
theorem dayProgress_not_strict :
    slotTimes[0]? = some (⟨7, 30⟩, ⟨8, 15⟩)
      ∧ toDateToday (⟨7, 30⟩ : HM) < clock 7 31 0 ∧ clock 7 31 0 < toDateToday (⟨8, 15⟩ : HM)
      ∧ calculateProgress slotTimes "day" ⟨1, clock 7 31 0⟩ = Except.ok 0
      ∧ slotTimes[11]? = some (⟨17, 10⟩, ⟨17, 55⟩)
      ∧ toDateToday (⟨17, 10⟩ : HM) < clock 17 54 0 ∧ clock 17 54 0 < toDateToday (⟨17, 55⟩ : HM)
      ∧ calculateProgress slotTimes "day" ⟨1, clock 17 54 0⟩ = Except.ok 100 := by
  refine ⟨by decide, by decide, by decide, by decide!, by decide, by decide, by decide,
    by decide!⟩

/-- C7 amended: on a weekday, for `now` strictly inside a slot of a strictly
increasing non-overlapping table whose times lie within one day,
`calculateProgress('day')` lies in 0..100 inclusive; it is above 0 exactly
when `dayEnd - dayStart <= 200 * (now - dayStart)` and below 100 exactly when
`dayEnd - dayStart < 200 * (dayEnd - now)`. -/
theorem dayProgress_inside (slotTimes : List (HM × HM)) (now : JsDate) (first last : HM × HM)
    (i : Nat) (s : HM × HM)
    (hwf : wellFormed slotTimes = true) (hd : todayIndex now ≤ 4)
    (hf : slotTimes.head? = some first) (hl : slotTimes.getLast? = some last)
    (hday : toDateToday last.2 ≤ 86400000)
    (hi : slotTimes[i]? = some s)
    (h1 : toDateToday s.1 < now.ms) (h2 : now.ms < toDateToday s.2) :
    ∃ p : ℤ, calculateProgress slotTimes "day" now = Except.ok p
      ∧ 0 ≤ p ∧ p ≤ 100
      ∧ (0 < p ↔ (toDateToday last.2 : ℤ) - toDateToday first.1
            ≤ 200 * ((now.ms : ℤ) - toDateToday first.1))
      ∧ (p < 100 ↔ (toDateToday last.2 : ℤ) - toDateToday first.1
            < 200 * ((toDateToday last.2 : ℤ) - now.ms)) := by
  have hd2 : ¬ todayIndex now > 4 := by omega
  have hmem : s ∈ slotTimes := List.getElem?_mem hi
  have a1 : toDateToday first.1 ≤ toDateToday s.1 := by
    cases slotTimes with
    | nil => simp at hf
    | cons a rest =>
      simp at hf
      subst hf
      exact wellFormed_start_le_start hwf s hmem
  have a2 : toDateToday s.2 ≤ toDateToday last.2 := wellFormed_end_le_last hwf hl s hmem
  have b1 : toDateToday first.1 ≤ now.ms := by omega
  have b2 : now.ms < toDateToday last.2 := by omega
  have hab : now.ms - toDateToday first.1 < toDateToday last.2 - toDateToday first.1 := by omega
  have hb : toDateToday last.2 - toDateToday first.1 ≤ 86400000 := by omega
  obtain ⟨r1, r2, r3, r4, _, _⟩ := interp_round _ _ hab hb
  refine ⟨_, ?_, r1, r2, ?_, ?_⟩
  · simp only [calculateProgress, hd2, if_false, if_true]
    exact dayBranch_inside hf hl now.ms b1 b2 hday
  · rw [r3]
    constructor <;> intro h <;> omega
  · rw [r4]
    constructor <;> intro h <;> omega

/-- Witness of C7 amended: Monday 07:45:00, inside slot 0 of the reference table. -/
theorem dayProgress_inside_witness :
    ∃ p : ℤ, calculateProgress slotTimes "day" ⟨1, clock 7 45 0⟩ = Except.ok p
      ∧ 0 ≤ p ∧ p ≤ 100
      ∧ (0 < p ↔ (clock 17 55 0 : ℤ) - clock 7 30 0 ≤ 200 * ((clock 7 45 0 : ℤ) - clock 7 30 0))
      ∧ (p < 100 ↔ (clock 17 55 0 : ℤ) - clock 7 30 0
            < 200 * ((clock 17 55 0 : ℤ) - clock 7 45 0)) :=
  dayProgress_inside slotTimes ⟨1, clock 7 45 0⟩ (⟨7, 30⟩, ⟨8, 15⟩) (⟨17, 10⟩, ⟨17, 55⟩) 0
    (⟨7, 30⟩, ⟨8, 15⟩) (by decide) (by decide) (by decide) (by decide) (by decide)
    (by decide) (by decide) (by decide)

/-! ## Lesson count -/

theorem wellFormed_end_mono : ∀ (l : List (HM × HM)) (i j : Nat) (s t : HM × HM),
    wellFormed l = true → l[i]? = some s → l[j]? = some t → i ≤ j →
    toDateToday s.2 ≤ toDateToday t.2 := by
  intro l
  induction l with
  | nil => intro i j s t _ hi; simp at hi
  | cons a rest ih =>
    intro i j s t hwf hi hj hij
    cases i with
    | zero =>
      simp at hi
      subst hi
      cases j with
      | zero =>
        simp at hj
        subst hj
        exact le_refl _
      | succ j2 =>
        simp at hj
        have hmem : t ∈ rest := List.getElem?_mem hj
        have h1 := wellFormed_end_le_start hwf t hmem
        have h2 := wellFormed_mem_lt (wellFormed_tail hwf) t hmem
        omega
    | succ i2 =>
      cases j with
      | zero => omega
      | succ j2 =>
        simp at hi hj
        exact ih i2 j2 s t (wellFormed_tail hwf) hi hj (by omega)

theorem countP_range_succ_shift (p : Nat → Bool) (n : Nat) :
    (List.range (n + 1)).countP p
      = (if p 0 then 1 else 0) + (List.range n).countP (fun j => p (j + 1)) := by
  rw [List.range_succ_eq_map, List.countP_cons, List.countP_map]
  have : (p ∘ Nat.succ) = fun j => p (j + 1) := rfl
  rw [this]
  omega

theorem countLoop_spec (week : List (List String)) (d now : Nat) (row : List String)
    (hrow : week[d]? = some row) :
    ∀ (l : List (HM × HM)) (k : Nat) (acc : Counts),
      countLoop week d now l k acc
        = Except.ok ⟨acc.total + (List.range l.length).countP (fun j => occupied row (k + j)),
            acc.remaining + (List.range l.length).countP
              (fun j => occupied row (k + j) && endsAfter l now j)⟩ := by
  intro l
  induction l with
  | nil => intro k acc; simp [countLoop]
  | cons a rest ih =>
    intro k acc
    rw [countLoop, getCell_row hrow]
    simp only [List.length_cons]
    rw [countP_range_succ_shift, countP_range_succ_shift]
    have e1 : (fun j => occupied row (k + (j + 1))) = fun j => occupied row (k + 1 + j) := by
      funext j
      rw [show k + (j + 1) = k + 1 + j by omega]
    have e2 : (fun j => occupied row (k + (j + 1)) && endsAfter (a :: rest) now (j + 1))
        = fun j => occupied row (k + 1 + j) && endsAfter rest now j := by
      funext j
      rw [show k + (j + 1) = k + 1 + j by omega]
      simp [endsAfter]
    rw [e1, e2]
    have e0 : endsAfter (a :: rest) now 0 = decide (now < toDateToday a.2) := by
      simp [endsAfter]
    simp only [Nat.add_zero, e0]
    cases hc : row[k]? with
    | none =>
      simp [jsTruthy, occupied, hc, ih]
    | some c =>
      by_cases hcc : c = ""
      · simp [jsTruthy, occupied, hc, hcc, ih]
      · by_cases hnow : now < toDateToday a.2
        · simp [jsTruthy, occupied, hc, hcc, hnow, ih]
          omega
        · simp [jsTruthy, occupied, hc, hcc, hnow, ih]
          omega

theorem lessonTotal_le_row (row : List String) :
    ∀ n, (List.range n).countP (fun i => occupied row i) ≤ row.length := by
  intro n
  induction n with
  | zero => simp
  | succ n ih =>
    rw [List.range_succ, List.countP_append]
    by_cases h : n < row.length
    · have h1 : (List.range n).countP (fun i => occupied row i) ≤ n := by
        have := List.countP_le_length (fun i => occupied row i) (l := List.range n)
        simpa using this
      have h2 : [n].countP (fun i => occupied row i) ≤ 1 := by
        have := List.countP_le_length (fun i => occupied row i) (l := [n])
        simpa using this
      omega
    · have h3 : row[n]? = Option.none := by
        simp
        omega
      have h4 : [n].countP (fun i => occupied row i) = 0 := by
        simp [occupied, h3]
      omega

/-- C6: on a weekday whose row exists, `countLessons` returns `total` = the
number of slot indices with a non-empty code in the row and `remaining` = the
number of those whose slot ends strictly later than `now`; hence
`remaining <= total <= N`, and for a strictly increasing non-overlapping table
`remaining = total` before the first occupied slot ends and `remaining = 0`
from the end of the last occupied slot on. -/
theorem countLessons_spec (slotTimes : List (HM × HM)) (week : List (List String))
    (now : JsDate) (row : List String)
    (hd : todayIndex now ≤ 4) (hrow : week[todayIndex now]? = some row) :
    countLessons slotTimes week now
        = Except.ok ⟨lessonTotal slotTimes row, lessonRemaining slotTimes row now.ms⟩
      ∧ lessonRemaining slotTimes row now.ms ≤ lessonTotal slotTimes row
      ∧ lessonTotal slotTimes row ≤ slotTimes.length
      ∧ lessonTotal slotTimes row ≤ row.length
      ∧ (wellFormed slotTimes = true → ∀ i s, slotTimes[i]? = some s → occupied row i = true →
          ((∀ j, j < i → occupied row j = false) → now.ms < toDateToday s.2 →
              lessonRemaining slotTimes row now.ms = lessonTotal slotTimes row)
            ∧ ((∀ j, i < j → occupied row j = false) → toDateToday s.2 ≤ now.ms →
              lessonRemaining slotTimes row now.ms = 0)) := by
  have hd2 : ¬ todayIndex now > 4 := by omega
  refine ⟨?_, ?_, ?_, ?_, ?_⟩
  · simp only [countLessons, hd2, if_false,
      countLoop_spec week (todayIndex now) now.ms row hrow slotTimes 0 ⟨0, 0⟩,
      lessonTotal, lessonRemaining, Nat.zero_add]
  · unfold lessonRemaining lessonTotal
    apply List.countP_mono_left
    intro i _ h
    simp only [Bool.and_eq_true] at h
    exact h.1
  · unfold lessonTotal
    have := List.countP_le_length (fun i => occupied row i) (l := List.range slotTimes.length)
    simpa using this
  · exact lessonTotal_le_row row slotTimes.length
  · intro hwf i s hi hocc
    constructor
    · intro hfirst hnow
      unfold lessonRemaining lessonTotal
      apply List.countP_congr
      intro j hj
      simp only [List.mem_range] at hj
      simp only [Bool.and_eq_true]
      constructor
      · intro h; exact h.1
      · intro h
        refine ⟨h, ?_⟩
        have hij : i ≤ j := by
          by_contra hc
          have := hfirst j (by omega)
          rw [this] at h
          cases h
        obtain ⟨t, ht⟩ : ∃ t, slotTimes[j]? = some t := ⟨slotTimes[j], by simp [hj]⟩
        have hm := wellFormed_end_mono slotTimes i j s t hwf hi ht hij
        simp only [endsAfter, ht, decide_eq_true_eq]
        omega
    · intro hlast hnow
      unfold lessonRemaining
      rw [List.countP_eq_zero]
      intro j hj
      simp only [List.mem_range] at hj
      simp only [Bool.and_eq_true, not_and]
      intro h
      have hji : j ≤ i := by
        by_contra hc
        have := hlast j (by omega)
        rw [this] at h
        cases h
      obtain ⟨t, ht⟩ : ∃ t, slotTimes[j]? = some t := ⟨slotTimes[j], by simp [hj]⟩
      have hm := wellFormed_end_mono slotTimes j i t s hwf ht hi hji
      simp only [endsAfter, ht, decide_eq_true_eq]
      omega

/-- Witness of C6: Monday 09:00:00, reference table, default week. -/
theorem countLessons_spec_witness :
    countLessons slotTimes defaultWeek ⟨1, clock 9 0 0⟩
      = Except.ok ⟨lessonTotal slotTimes ["", "D", "MA", "MA", "NT", "", "", "E", "G", "MI", "BS", ""],
          lessonRemaining slotTimes ["", "D", "MA", "MA", "NT", "", "", "E", "G", "MI", "BS", ""]
            (clock 9 0 0)⟩ :=
  (countLessons_spec slotTimes defaultWeek ⟨1, clock 9 0 0⟩
    ["", "D", "MA", "MA", "NT", "", "", "E", "G", "MI", "BS", ""] (by decide) (by decide)).1

/-! ## Display names -/

/-- C9 on the code: with the code `"XY"`, which has no entry in
`subjectNames`, in Monday's second slot, the lesson pill and the schedule list
fall back to the code itself, but the break state's next-subject line has no
fallback: at Monday 08:15:00 the state is the break before `"XY"` and the line
shows `undefined` in place of `XY`. -/
theorem break_label_undefined :
    findCurrentSlot slotTimes customWeek ⟨1, clock 8 15 0⟩
        = Except.ok (SlotState.brk 0 (clock 8 20 0) "XY")
      ∧ subjectName "XY" = Option.none
      ∧ updateCurrent slotTimes (SlotState.brk 0 (clock 8 20 0) "XY")
          = Except.ok ⟨"Pause", "N√§chste: undefined"⟩
      ∧ updateCurrent slotTimes (SlotState.brk 0 (clock 8 20 0) "D")
          = Except.ok ⟨"Pause", "N√§chste: Deutsch"⟩
      ∧ findCurrentSlot slotTimes customWeek ⟨1, clock 8 20 0⟩
          = Except.ok (SlotState.lesson 1 (clock 8 20 0) (clock 9 5 0) "XY")
      ∧ (updateCurrent slotTimes (SlotState.lesson 1 (clock 8 20 0) (clock 9 5 0) "XY")).map
          CurrentView.pillText = Except.ok "XY"
      ∧ (updateSchedule slotTimes customWeek ⟨1, clock 8 15 0⟩
            (SlotState.brk 0 (clock 8 20 0) "XY")).map
          (Option.map (List.map (fun it => (it.subject, it.name))))
          = Except.ok (some [("XY", "XY"), ("MA", "Mathematik"), ("MA", "Mathematik"),
              ("NT", "Natur & Technik"), ("E", "Englisch"), ("G", "Geschichte"),
              ("MI", "Informatik"), ("BS", "Sport")]) := by
  refine ⟨by decide, by decide, by decide, by decide, by decide, by decide, by decide⟩

/-! ## The shape of the week table -/

theorem lessonLoop_ok (week : List (List String)) (d now : Nat) (row : List String)
    (hrow : week[d]? = some row) :
    ∀ (l : List (HM × HM)) (k : Nat), ∃ r, lessonLoop week d now l k = Except.ok r := by
  intro l
  induction l with
  | nil => intro k; exact ⟨_, rfl⟩
  | cons a rest ih =>
    intro k
    rw [lessonLoop]
    by_cases h : toDateToday a.1 ≤ now ∧ now < toDateToday a.2
    · simp only [h, and_self, if_true, getCell_row hrow]
      exact ⟨_, rfl⟩
    · simp only [h, if_false]
      exact ih (k + 1)

theorem breakLoop_ok (week : List (List String)) (d now : Nat) (row : List String)
    (hrow : week[d]? = some row) :
    ∀ (l : List (HM × HM)) (k : Nat), ∃ r, breakLoop week d now l k = Except.ok r := by
  intro l
  induction l with
  | nil => intro k; exact ⟨_, rfl⟩
  | cons a rest ih =>
    intro k
    cases rest with
    | nil => exact ⟨_, rfl⟩
    | cons b rest2 =>
      rw [breakLoop]
      by_cases h : toDateToday a.2 ≤ now ∧ now < toDateToday b.1
      · simp only [h, and_self, if_true, getCell_row hrow]
        exact ⟨_, rfl⟩
      · simp only [h, if_false]
        exact ih (k + 1)

theorem weekShape_row {n : Nat} {week : List (List String)} (h : weekShape n week = true)
    (d : Nat) (hd : d ≤ 4) : ∃ row, week[d]? = some row ∧ row.length = n := by
  simp only [weekShape, Bool.and_eq_true, decide_eq_true_eq, List.all_eq_true] at h
  have hlt : d < week.length := by omega
  refine ⟨week[d], by simp [hlt], ?_⟩
  exact h.2 _ (List.getElem_mem hlt)

/-- C10, as stated, fails: `loadSettings` does not reject a malformed week.
From the initial 5 x 12 table, an `ok` response whose `schedule_data` holds
the one-row week `[["MA"]]` installs that week; on a Tuesday `countLessons`
and `findCurrentSlot` then index a missing row and throw. -/
theorem loadSettings_installs_malformed :
    weekShape 12 initialState.week = true
      ∧ (loadSettings initialState (some ⟨true, true, "light", false, false,
          ScheduleData.parsed (some [["MA"]])⟩)).week = [["MA"]]
      ∧ weekShape 12 [["MA"]] = false
      ∧ countLessons slotTimes [["MA"]] ⟨2, clock 9 0 0⟩ = Except.error JsError.typeError
      ∧ findCurrentSlot slotTimes [["MA"]] ⟨2, clock 9 0 0⟩ = Except.error JsError.typeError := by
  decide

/-- C10 amended: the initial week table has 5 rows of exactly 12 codes;
`loadSettings` checks no shape and installs the week of an `ok` response as it
is; on every other path (failed fetch, response not `ok`, `schedule_data`
absent, unparsable or without a week) the week is left unchanged; so the
5 x 12 shape is kept when the response carries no week or a 5 x 12 week; and
with a 5 x 12 week `findCurrentSlot` and `countLessons` never throw. -/
theorem loadSettings_shape :
    weekShape slotTimes.length initialState.week = true
      ∧ (∀ (st : ClientState) (r : SettingsResponse) (w : List (List String)),
          r.ok = true → r.schedule_data = ScheduleData.parsed (some w) →
          (loadSettings st (some r)).week = w)
      ∧ (∀ (st : ClientState) (res : Option SettingsResponse),
          (∀ r w, res = some r → r.ok = true →
            r.schedule_data = ScheduleData.parsed (some w) → False) →
          (loadSettings st res).week = st.week)
      ∧ (∀ (st : ClientState) (res : Option SettingsResponse),
          weekShape 12 st.week = true →
          (∀ r w, res = some r → r.schedule_data = ScheduleData.parsed (some w) →
            weekShape 12 w = true) →
          weekShape 12 (loadSettings st res).week = true)
      ∧ (∀ (week : List (List String)) (now : JsDate), weekShape 12 week = true →
          (∃ r, findCurrentSlot slotTimes week now = Except.ok r)
            ∧ ∃ c, countLessons slotTimes week now = Except.ok c) := by
  refine ⟨by decide, ?_, ?_, ?_, ?_⟩
  · intro st r w hok hsd
    simp [loadSettings, hok, hsd]
  · intro st res hno
    cases res with
    | none => rfl
    | some r =>
      by_cases hok : r.ok = true
      · cases hsd : r.schedule_data with
        | absent => simp [loadSettings, hok, hsd]
        | invalid => simp [loadSettings, hok, hsd]
        | parsed ow =>
          cases ow with
          | none => simp [loadSettings, hok, hsd]
          | some w => exact absurd (hno r w rfl hok hsd) id
      · simp [loadSettings, hok]
  · intro st res hst hres
    cases res with
    | none => simpa [loadSettings] using hst
    | some r =>
      by_cases hok : r.ok = true
      · cases hsd : r.schedule_data with
        | absent => simpa [loadSettings, hok, hsd] using hst
        | invalid => simpa [loadSettings, hok, hsd] using hst
        | parsed ow =>
          cases ow with
          | none => simpa [loadSettings, hok, hsd] using hst
          | some w =>
            have := hres r w rfl hsd
            simpa [loadSettings, hok, hsd] using this
      · simpa [loadSettings, hok] using hst
  · intro week now hw
    by_cases hd : todayIndex now > 4
    · exact ⟨⟨SlotState.weekend, by simp [findCurrentSlot, hd]⟩,
        ⟨⟨0, 0⟩, by simp [countLessons, hd]⟩⟩
    · obtain ⟨row, hrow, _⟩ := weekShape_row hw (todayIndex now) (by omega)
      constructor
      · obtain ⟨r1, h1⟩ := lessonLoop_ok week (todayIndex now) now.ms row hrow slotTimes 0
        obtain ⟨r2, h2⟩ := breakLoop_ok week (todayIndex now) now.ms row hrow slotTimes 0
        simp only [findCurrentSlot, hd, if_false, h1, h2]
        cases r1 with
        | some r => exact ⟨_, rfl⟩
        | none =>
          cases r2 with
          | some r => exact ⟨_, rfl⟩
          | none => exact ⟨_, rfl⟩
      · have h3 := countLoop_spec week (todayIndex now) now.ms row hrow slotTimes 0 ⟨0, 0⟩
        simp only [countLessons, hd, if_false, h3]
        exact ⟨_, rfl⟩

/-- Witness of C10 amended: an `ok` response carrying the default week keeps
the shape, a response that is not `ok` leaves the installed week in place, and
the loaded table resolves on a Tuesday morning. -/
theorem loadSettings_shape_witness :
    weekShape 12 (loadSettings initialState (some ⟨true, false, "dark", true, false,
        ScheduleData.parsed (some defaultWeek)⟩)).week = true
      ∧ (loadSettings ⟨initialState.settings, customWeek⟩ (some ⟨false, false, "dark", true,
          false, ScheduleData.parsed (some defaultWeek)⟩)).week = customWeek
      ∧ ((∃ r, findCurrentSlot slotTimes defaultWeek ⟨2, clock 9 0 0⟩ = Except.ok r)
        ∧ ∃ c, countLessons slotTimes defaultWeek ⟨2, clock 9 0 0⟩ = Except.ok c) :=
  ⟨loadSettings_shape.2.2.2.1 initialState (some ⟨true, false, "dark", true, false,
      ScheduleData.parsed (some defaultWeek)⟩) (by decide)
      (by
        intro r w hr hw
        cases hr
        cases hw
        decide),
    loadSettings_shape.2.2.1 ⟨initialState.settings, customWeek⟩ (some ⟨false, false, "dark",
      true, false, ScheduleData.parsed (some defaultWeek)⟩)
      (by
        intro r w hr hok
        cases hr
        cases hok),
    loadSettings_shape.2.2.2.2 defaultWeek ⟨2, clock 9 0 0⟩ (by decide)⟩

/-! ## Coverage of the school day -/

theorem slotCount_cons (a : HM × HM) (rest : List (HM × HM)) (now : Nat) :
    (List.range (a :: rest).length).countP (slotMatch (a :: rest) now)
      = (if toDateToday a.1 ≤ now ∧ now < toDateToday a.2 then 1 else 0)
        + (List.range rest.length).countP (slotMatch rest now) := by
  simp only [List.length_cons]
  rw [countP_range_succ_shift]
  have e : (fun j => slotMatch (a :: rest) now (j + 1)) = slotMatch rest now := by
    funext j
    simp [slotMatch]
  rw [e]
  simp [slotMatch]

theorem gapCount_cons (a b : HM × HM) (rest : List (HM × HM)) (now : Nat) :
    (List.range ((a :: b :: rest).length - 1)).countP (gapMatch (a :: b :: rest) now)
      = (if toDateToday a.2 ≤ now ∧ now < toDateToday b.1 then 1 else 0)
        + (List.range ((b :: rest).length - 1)).countP (gapMatch (b :: rest) now) := by
  simp only [List.length_cons, Nat.add_sub_cancel]
  rw [countP_range_succ_shift]
  have e : (fun j => gapMatch (a :: b :: rest) now (j + 1)) = gapMatch (b :: rest) now := by
    funext j
    simp [gapMatch]
  rw [e]
  simp [gapMatch]

theorem matchCount_before (now : Nat) :
    ∀ (l : List (HM × HM)), wellFormed l = true →
      (∀ first, l.head? = some first → now < toDateToday first.1) → matchCount l now = 0 := by
  intro l
  induction l with
  | nil => intro _ _; simp [matchCount]
  | cons a rest ih =>
    intro hwf hb
    have h1 := hb a rfl
    have h2 := wellFormed_head_lt hwf
    have hno : ¬ (toDateToday a.1 ≤ now ∧ now < toDateToday a.2) := by omega
    cases rest with
    | nil =>
      unfold matchCount
      rw [slotCount_cons]
      simp [hno]
    | cons b rest2 =>
      have h3 := wellFormed_end_le_start hwf b (List.mem_cons_self _ _)
      have hno2 : ¬ (toDateToday a.2 ≤ now ∧ now < toDateToday b.1) := by omega
      have hrec := ih (wellFormed_tail hwf) (by
        intro first hf
        simp at hf
        subst hf
        omega)
      unfold matchCount at hrec ⊢
      rw [slotCount_cons, gapCount_cons]
      simp only [hno, hno2, if_false]
      omega

theorem matchCount_inside (now : Nat) :
    ∀ (l : List (HM × HM)) (first last : HM × HM), wellFormed l = true →
      l.head? = some first → l.getLast? = some last →
      toDateToday first.1 ≤ now → now < toDateToday last.2 → matchCount l now = 1 := by
  intro l
  induction l with
  | nil => intro first last _ hf; simp at hf
  | cons a rest ih =>
    intro first last hwf hf hl h1 h2
    simp at hf
    subst hf
    cases rest with
    | nil =>
      simp at hl
      subst hl
      have hyes : toDateToday a.1 ≤ now ∧ now < toDateToday a.2 := ⟨h1, h2⟩
      unfold matchCount
      rw [slotCount_cons]
      simp [hyes]
    | cons b rest2 =>
      have hl2 : (b :: rest2).getLast? = some last := by
        simpa [List.getLast?_cons_cons] using hl
      have h3 := wellFormed_end_le_start hwf b (List.mem_cons_self _ _)
      unfold matchCount
      rw [slotCount_cons, gapCount_cons]
      by_cases c1 : now < toDateToday a.2
      · have hyes : toDateToday a.1 ≤ now ∧ now < toDateToday a.2 := ⟨h1, c1⟩
        have hno2 : ¬ (toDateToday a.2 ≤ now ∧ now < toDateToday b.1) := by omega
        have hrec := matchCount_before now (b :: rest2) (wellFormed_tail hwf) (by
          intro f hf
          simp at hf
          subst hf
          omega)
        unfold matchCount at hrec
        simp only [hyes, and_self, hno2, if_true, if_false]
        omega
      · have hno : ¬ (toDateToday a.1 ≤ now ∧ now < toDateToday a.2) := by omega
        by_cases c2 : now < toDateToday b.1
        · have hyes2 : toDateToday a.2 ≤ now ∧ now < toDateToday b.1 := ⟨by omega, c2⟩
          have hrec := matchCount_before now (b :: rest2) (wellFormed_tail hwf) (by
            intro f hf
            simp at hf
            subst hf
            exact c2)
          unfold matchCount at hrec
          simp only [hno, hyes2, and_self, if_true, if_false]
          omega
        · have hno2 : ¬ (toDateToday a.2 ≤ now ∧ now < toDateToday b.1) := by omega
          have hrec := ih b last (wellFormed_tail hwf) rfl hl2 (by omega) h2
          unfold matchCount at hrec
          simp only [hno, hno2, if_false]
          omega

theorem matchCount_index (l : List (HM × HM)) (now : Nat) (h : matchCount l now = 1) :
    (∃ (i : Nat) (s : HM × HM), l[i]? = some s ∧ toDateToday s.1 ≤ now ∧ now < toDateToday s.2)
      ∨ (∃ (i : Nat) (s t : HM × HM), l[i]? = some s ∧ l[i + 1]? = some t
          ∧ toDateToday s.2 ≤ now ∧ now < toDateToday t.1) := by
  unfold matchCount at h
  by_cases hs : 0 < (List.range l.length).countP (slotMatch l now)
  · left
    rw [List.countP_pos_iff] at hs
    obtain ⟨i, _, hi⟩ := hs
    unfold slotMatch at hi
    cases hc : l[i]? with
    | none => simp [hc] at hi
    | some s =>
      simp only [hc, decide_eq_true_eq] at hi
      exact ⟨i, s, hc, hi.1, hi.2⟩
  · right
    have hg : 0 < (List.range (l.length - 1)).countP (gapMatch l now) := by omega
    rw [List.countP_pos_iff] at hg
    obtain ⟨i, _, hi⟩ := hg
    unfold gapMatch at hi
    cases hc : l[i]? with
    | none => simp [hc] at hi
    | some s =>
      cases hc2 : l[i + 1]? with
      | none => simp [hc, hc2] at hi
      | some t =>
        simp only [hc, hc2, decide_eq_true_eq] at hi
        exact ⟨i, s, t, hc, hc2, hi.1, hi.2⟩

theorem findCurrentSlot_inside (l : List (HM × HM)) (week : List (List String)) (now : JsDate)
    (first last : HM × HM) (hwf : wellFormed l = true) (hd : todayIndex now ≤ 4)
    (hf : l.head? = some first) (hl : l.getLast? = some last)
    (h1 : toDateToday first.1 ≤ now.ms) (h2 : now.ms < toDateToday last.2) :
    (∃ (i : Nat) (s : HM × HM), slotMatch l now.ms i = true ∧
        findCurrentSlot l week now =
          match getCell week (todayIndex now) i with
          | Except.error e => Except.error e
          | Except.ok cell => Except.ok (SlotState.lesson i (toDateToday s.1)
              (toDateToday s.2) (jsOr cell "frei")))
      ∨ (∃ (i : Nat) (t : HM × HM), gapMatch l now.ms i = true ∧
        findCurrentSlot l week now =
          match getCell week (todayIndex now) (i + 1) with
          | Except.error e => Except.error e
          | Except.ok cell => Except.ok (SlotState.brk i (toDateToday t.1) (jsOr cell ""))) := by
  have hd2 : ¬ todayIndex now > 4 := by omega
  have hcount := matchCount_inside now.ms l first last hwf hf hl h1 h2
  rcases matchCount_index l now.ms hcount with ⟨i, s, hi, a1, a2⟩ | ⟨i, s, t, hi, ht, a1, a2⟩
  · left
    refine ⟨i, s, by simp [slotMatch, hi, a1, a2], ?_⟩
    have h := lessonLoop_hit week (todayIndex now) now.ms l 0 i s hwf hi a1 a2
    simp only [Nat.zero_add] at h
    simp only [findCurrentSlot, hd2, if_false, h]
    cases getCell week (todayIndex now) i <;> rfl
  · right
    refine ⟨i, t, by simp [gapMatch, hi, ht, a1, a2], ?_⟩
    have hl0 := lessonLoop_none_gap week (todayIndex now) now.ms l 0 i s t hwf hi ht a1 a2
    have hb := breakLoop_hit week (todayIndex now) now.ms l 0 i s t hwf hi ht a1 a2
    simp only [Nat.zero_add] at hb
    simp only [findCurrentSlot, hd2, if_false, hl0, hb]
    cases getCell week (todayIndex now) (i + 1) <;> rfl

/-- C11: with the reference 12-slot table, on every weekday and for every
`now` with 07:30 <= now < 17:55, exactly one slot or gap test holds,
`findCurrentSlot` is never the `none` state and, when the week table has the
day's row, it is the lesson state of the matching slot or the break state of
the matching gap; and the `none` state is returned on a weekday if and only if
`now` is before 07:30 or at or after 17:55. -/
theorem school_day_coverage (week : List (List String)) (now : JsDate)
    (hd : todayIndex now ≤ 4) :
    (clock 7 30 0 ≤ now.ms → now.ms < clock 17 55 0 →
        matchCount slotTimes now.ms = 1
          ∧ findCurrentSlot slotTimes week now ≠ Except.ok SlotState.none
          ∧ ∀ row, week[todayIndex now]? = some row →
              (∃ i a b c, slotMatch slotTimes now.ms i = true
                  ∧ findCurrentSlot slotTimes week now = Except.ok (SlotState.lesson i a b c))
                ∨ (∃ i e c, gapMatch slotTimes now.ms i = true
                  ∧ findCurrentSlot slotTimes week now = Except.ok (SlotState.brk i e c)))
      ∧ (findCurrentSlot slotTimes week now = Except.ok SlotState.none
          ↔ now.ms < clock 7 30 0 ∨ clock 17 55 0 ≤ now.ms) := by
  have hwf : wellFormed slotTimes = true := by decide
  have hf : slotTimes.head? = some (⟨7, 30⟩, ⟨8, 15⟩) := by decide
  have hl : slotTimes.getLast? = some (⟨17, 10⟩, ⟨17, 55⟩) := by decide
  have e1 : toDateToday (⟨7, 30⟩ : HM) = clock 7 30 0 := by decide
  have e2 : toDateToday (⟨17, 55⟩ : HM) = clock 17 55 0 := by decide
  have hd2 : ¬ todayIndex now > 4 := by omega
  have inside : clock 7 30 0 ≤ now.ms → now.ms < clock 17 55 0 →
      findCurrentSlot slotTimes week now ≠ Except.ok SlotState.none := by
    intro h1 h2
    rcases findCurrentSlot_inside slotTimes week now _ _ hwf hd hf hl
        (by simpa [e1] using h1) (by simpa [e2] using h2) with ⟨i, s, _, h⟩ | ⟨i, t, _, h⟩
    · rw [h]
      cases getCell week (todayIndex now) i <;> simp
    · rw [h]
      cases getCell week (todayIndex now) (i + 1) <;> simp
  constructor
  · intro h1 h2
    refine ⟨?_, inside h1 h2, ?_⟩
    · exact matchCount_inside now.ms slotTimes _ _ hwf hf hl
        (by simpa [e1] using h1) (by simpa [e2] using h2)
    · intro row hrow
      rcases findCurrentSlot_inside slotTimes week now _ _ hwf hd hf hl
          (by simpa [e1] using h1) (by simpa [e2] using h2) with ⟨i, s, hm, h⟩ | ⟨i, t, hm, h⟩
      · left
        rw [getCell_row hrow] at h
        exact ⟨i, _, _, _, hm, h⟩
      · right
        rw [getCell_row hrow] at h
        exact ⟨i, _, _, hm, h⟩
  · constructor
    · intro h
      by_contra hc
      exact inside (by omega) (by omega) h
    · rintro (h | h)
      · have hb : ∀ f, slotTimes.head? = some f → now.ms < toDateToday f.1 := by
          intro f hf2
          rw [hf] at hf2
          cases hf2
          simpa [e1] using h
        simp only [findCurrentSlot, hd2, if_false,
          lessonLoop_none_before week (todayIndex now) now.ms slotTimes 0 hwf hb,
          breakLoop_none_before week (todayIndex now) now.ms slotTimes 0 hwf hb]
      · have hb : ∀ f, slotTimes.getLast? = some f → toDateToday f.2 ≤ now.ms := by
          intro f hf2
          rw [hl] at hf2
          cases hf2
          simpa [e2] using h
        simp only [findCurrentSlot, hd2, if_false,
          lessonLoop_none_after week (todayIndex now) now.ms slotTimes 0 hwf hb,
          breakLoop_none_after week (todayIndex now) now.ms slotTimes 0 hwf hb]

/-- Witness of C11: Thursday 10:00:00, in the long break after slot 2, with
the default week. -/
theorem school_day_coverage_witness :
    matchCount slotTimes (clock 10 0 0) = 1
      ∧ findCurrentSlot slotTimes defaultWeek ⟨4, clock 10 0 0⟩ ≠ Except.ok SlotState.none :=
  ⟨((school_day_coverage defaultWeek ⟨4, clock 10 0 0⟩ (by decide)).1
      (by decide) (by decide)).1,
    ((school_day_coverage defaultWeek ⟨4, clock 10 0 0⟩ (by decide)).1
      (by decide) (by decide)).2.1⟩

/-! ## Signup with a stored username -/

theorem signup_clash (hash : String → String) (db : Db) (username password : String)
    (h1 : 3 ≤ jsLength username) (h2 : jsLength username ≤ 20) (h3 : 6 ≤ jsLength password)
    (hraw : selectUser db username = Option.none)
    (hlow : db.users.any (fun u => decide (u.username = toLowerCase username)) = true) :
    signup hash db (signupRequest username password)
      = (db, ⟨500, "Internal server error", Option.none⟩) := by
  have hu : username ≠ "" := by
    intro h
    rw [h] at h1
    exact absurd h1 (by decide)
  have hp : password ≠ "" := by
    intro h
    rw [h] at h3
    exact absurd h3 (by decide)
  have hlen : ¬ (jsLength username < 3 ∨ jsLength username > 20) := by omega
  have hpl : ¬ jsLength password < 6 := by omega
  simp only [signup, signupRequest, hu, hp, or_self, if_false, hlen, hpl, hraw,
    Option.isSome_none, Bool.false_eq_true, hlow, if_true]

/-- C12 on the code: with `bob` stored, `POST /api/signup` for `Bob` with a
valid password passes the case-sensitive existence check, fails on the
`UNIQUE` constraint of the lower-cased insert and is answered 500 with the
database unchanged, where the claim says 409; the same request for `bob` is
answered 409, and the login lookup does find `bob` for `Bob`. -/
theorem signup_duplicate_500 :
    toLowerCase "Bob" = "bob"
      ∧ (∀ hash, signup hash bobDb (signupRequest "Bob" "secret1")
          = (bobDb, ⟨500, "Internal server error", Option.none⟩))
      ∧ (∀ hash, signup hash bobDb (signupRequest "bob" "secret1")
          = (bobDb, ⟨409, "Username already exists", Option.none⟩))
      ∧ selectUser bobDb "Bob" = Option.none
      ∧ loginSelect bobDb "Bob" = some ⟨1, "bob", Option.none, "$2b$10$hash", "bob"⟩ := by
  refine ⟨by decide, ?_, ?_, by decide, by decide⟩
  · intro hash
    exact signup_clash hash bobDb "Bob" "secret1" (by decide) (by decide) (by decide)
      (by decide) (by decide)
  · intro hash
    rfl

end Stundenplan
